import Mathlib

/-!
Verification of the PixelFruit pixel pipeline.

The development shallowly embeds the per-pixel color-grading chain, the
color-range replacement subsystem, the histogram computations, the worker
filters and the scheduler/cache of the repository.  JS numbers are modelled
as rationals; stores into a `Uint8ClampedArray` clamp to `[0,255]` and round
half-to-even, which `jsByteStore` mirrors.  `Math.min`/`Math.max` are `min`/
`max`, JS `x >> 1` on an integer is flooring division by two, and JS
`Math.round` is `round` (both are `⌊x + 1/2⌋`, including on negatives).
-/


/-- One RGBA pixel of a buffer: four channel values, modelled as rationals
(the values a `Uint8ClampedArray` holds are integers in `[0,255]`). -/
structure Pixel where
  r : ℚ
  g : ℚ
  b : ℚ
  a : ℚ
deriving DecidableEq, Repr, Inhabited

/-- Clamp a channel value to `[0,255]`, as the ubiquitous
`min(255, max(0, v))` pattern of the source. -/
def clampChannel (x : ℚ) : ℚ := min 255 (max 0 x)

/-- Round half to even, the rounding a JS `Uint8ClampedArray` applies when a
number is stored into it. -/
def roundHalfEven (x : ℚ) : ℤ :=
  if x - (⌊x⌋ : ℚ) < 1/2 then ⌊x⌋
  else if 1/2 < x - (⌊x⌋ : ℚ) then ⌊x⌋ + 1
  else if ⌊x⌋ % 2 = 0 then ⌊x⌋ else ⌊x⌋ + 1

/-- Semantics of `data[i] = v` on a `Uint8ClampedArray`: clamp to `[0,255]`,
then round half to even.  The stored value is returned as a rational. -/
def jsByteStore (x : ℚ) : ℚ := ((roundHalfEven (clampChannel x) : ℤ) : ℚ)

/-- Effective settings of the color-grading pass `applyColorAdjustments`
(src/unnamed/part_001).  Each field is the value the source reads either from
the `settings` object or from the corresponding slider
(`parseInt(slider.value)`); missing temperature/tint sliders read as `0`. -/
structure ColorSettings where
  /-- `settings.bright || 1.0` -/
  bright : ℚ
  /-- `parseInt(colorElements.contrastSlider.value)` -/
  contrast : ℤ
  /-- `parseInt(colorElements.saturationSlider.value)` -/
  saturation : ℤ
  /-- `settings.exp_shift || 0.0` -/
  exp_shift : ℚ
  /-- `settings.shadows`, falling back to the shadows slider -/
  shadows : ℤ
  /-- temperature slider value, `0` when absent -/
  temperature : ℤ
  /-- tint slider value, `0` when absent -/
  tint : ℤ
  /-- `settings.highlights`, falling back to the highlights slider -/
  highlights : ℤ
  /-- `settings.whites`, falling back to the whites slider -/
  whites : ℤ
  /-- `settings.user_mul` when it is a 4-element array, else `none` -/
  user_mul : Option (ℚ × ℚ × ℚ × ℚ)
deriving DecidableEq, Repr

/-- Loop body of `applyColorAdjustments` (src/unnamed/part_001, lines
98-233) for one pixel.  `pow2exp` is the precomputed `exposureFactor`,
`contrastFactor` and `saturationFactor` the other precomputed factors.
Every stage is an exact transcription of the corresponding `if` block; the
final write-back stores the three channels through the clamped byte store
and leaves alpha untouched. -/
def adjustPixelChain (s : ColorSettings)
    (contrastFactor pow2exp saturationFactor : ℚ) (p : Pixel) : Pixel :=
  let r := p.r
  let g := p.g
  let b := p.b
  -- white balance multipliers
  let (r, g, b) :=
    match s.user_mul with
    | some (m0, m1, m2, _) =>
        (min 255 (max 0 (r * m0)), min 255 (max 0 (g * m1)), min 255 (max 0 (b * m2)))
    | none => (r, g, b)
  -- brightness
  let (r, g, b) :=
    if s.bright ≠ 1 then
      (min 255 (max 0 (r * s.bright)), min 255 (max 0 (g * s.bright)),
       min 255 (max 0 (b * s.bright)))
    else (r, g, b)
  -- contrast
  let (r, g, b) :=
    if s.contrast ≠ 0 then
      (min 255 (max 0 (contrastFactor * (r - 128) + 128)),
       min 255 (max 0 (contrastFactor * (g - 128) + 128)),
       min 255 (max 0 (contrastFactor * (b - 128) + 128)))
    else (r, g, b)
  -- saturation
  let (r, g, b) :=
    if s.saturation ≠ 100 then
      let gray := (299/1000) * r + (587/1000) * g + (114/1000) * b
      (min 255 (max 0 (gray + saturationFactor * (r - gray))),
       min 255 (max 0 (gray + saturationFactor * (g - gray))),
       min 255 (max 0 (gray + saturationFactor * (b - gray))))
    else (r, g, b)
  -- temperature (`temperature >> 1` floors the division by two)
  let (r, b) :=
    if s.temperature ≠ 0 then
      let (r, b) :=
        if 0 < s.temperature then
          (r + (s.temperature : ℚ), b - ((Int.fdiv s.temperature 2 : ℤ) : ℚ))
        else
          (r + ((Int.fdiv s.temperature 2 : ℤ) : ℚ), b - (s.temperature : ℚ))
      (min 255 (max 0 r), min 255 (max 0 b))
    else (r, b)
  -- tint
  let (r, g) :=
    if s.tint ≠ 0 then
      let (r, g) :=
        if 0 < s.tint then
          (r - ((Int.fdiv s.tint 2 : ℤ) : ℚ), g + (s.tint : ℚ))
        else
          (r - (s.tint : ℚ), g + ((Int.fdiv s.tint 2 : ℤ) : ℚ))
      (min 255 (max 0 r), min 255 (max 0 g))
    else (r, g)
  -- exposure
  let (r, g, b) :=
    if s.exp_shift ≠ 0 then
      (min 255 (max 0 (r * pow2exp)), min 255 (max 0 (g * pow2exp)),
       min 255 (max 0 (b * pow2exp)))
    else (r, g, b)
  -- shadows: pull channels below the threshold 64 toward it
  let (r, g, b) :=
    if s.shadows ≠ 0 then
      let adj := (s.shadows : ℚ) / 100
      let r := if r < 64 then min 64 (max 0 (r + (64 - r) * adj)) else r
      let g := if g < 64 then min 64 (max 0 (g + (64 - g) * adj)) else g
      let b := if b < 64 then min 64 (max 0 (b + (64 - b) * adj)) else b
      (r, g, b)
    else (r, g, b)
  -- highlights: push channels above the threshold 192 away from it
  let (r, g, b) :=
    if s.highlights ≠ 0 then
      let adj := (s.highlights : ℚ) / 100
      let r := if 192 < r then max 192 (min 255 (r + (r - 192) * adj)) else r
      let g := if 192 < g then max 192 (min 255 (g + (g - 192) * adj)) else g
      let b := if 192 < b then max 192 (min 255 (b + (b - 192) * adj)) else b
      (r, g, b)
    else (r, g, b)
  -- whites: scale pixels whose mean brightness exceeds 220; this stage only
  -- clamps from above, negative products are caught by the byte store below
  let (r, g, b) :=
    if s.whites ≠ 100 then
      let adj := (s.whites : ℚ) / 100
      if 220 < r ∨ 220 < g ∨ 220 < b then
        if 220 < (r + g + b) / 3 then
          (min 255 (r * adj), min 255 (g * adj), min 255 (b * adj))
        else (r, g, b)
      else (r, g, b)
    else (r, g, b)
  { r := jsByteStore r, g := jsByteStore g, b := jsByteStore b, a := p.a }

/-- Precomputed `contrastFactor` of `applyColorAdjustments`:
`contrast !== 0 ? (259*(contrast+255)) / (255*(259-contrast)) : 1`. -/
def contrastFactorOf (s : ColorSettings) : ℚ :=
  if s.contrast ≠ 0 then
    (259 * ((s.contrast : ℚ) + 255)) / (255 * (259 - (s.contrast : ℚ)))
  else 1

/-- Precomputed `exposureFactor`: `exposure !== 0 ? Math.pow(2, exposure) : 1`. -/
def exposureFactorOf (pow2 : ℚ → ℚ) (s : ColorSettings) : ℚ :=
  if s.exp_shift ≠ 0 then pow2 s.exp_shift else 1

/-- Precomputed `saturationFactor`: `saturation !== 100 ? saturation/100 : 1`. -/
def saturationFactorOf (s : ColorSettings) : ℚ :=
  if s.saturation ≠ 100 then (s.saturation : ℚ) / 100 else 1

/-- Embedding of `applyColorAdjustments(data, width, height, settings)` of
src/unnamed/part_001 (lines 48-234).  `pow2` abstracts `Math.pow(2, ·)`,
which is transcendental for fractional stops; it is used exactly where the
source computes `exposureFactor` and nowhere constrained.  The guard is the
source's early return: when every per-stage `need...` flag is false the
function returns without entering the pixel loop, leaving the buffer
untouched. -/
def applyColorAdjustments (pow2 : ℚ → ℚ) (data : List Pixel)
    (s : ColorSettings) : List Pixel :=
  if s.bright = 1 ∧ s.contrast = 0 ∧ s.saturation = 100 ∧
     s.temperature = 0 ∧ s.tint = 0 ∧ s.exp_shift = 0 ∧
     s.user_mul.isSome = false ∧
     s.shadows = 0 ∧ s.highlights = 0 ∧ s.whites = 100 then
    data
  else
    data.map (adjustPixelChain s (contrastFactorOf s) (exposureFactorOf pow2 s)
      (saturationFactorOf s))

/-- Settings with every stage at its identity value. -/
def identitySettings : ColorSettings :=
  { bright := 1, contrast := 0, saturation := 100, exp_shift := 0,
    shadows := 0, temperature := 0, tint := 0, highlights := 0,
    whites := 100, user_mul := none }

/-- A pixel whose three color channels lie in `[0,255]`. -/
def ChannelsInRange (p : Pixel) : Prop :=
  (0 ≤ p.r ∧ p.r ≤ 255) ∧ (0 ≤ p.g ∧ p.g ≤ 255) ∧ (0 ≤ p.b ∧ p.b ≤ 255)

/-- An RGB color triple: the `{r, g, b}` objects the color-replacement module
passes around (`hexToRgb` results and pixel colors). -/
structure Rgb where
  r : ℚ
  g : ℚ
  b : ℚ
deriving DecidableEq, Repr, Inhabited

/-- The vector `startToEnd` precomputed by `findColorsInRange`
(src/unnamed/part_001, lines 883-887). -/
def startToEndOf (startRgb endRgb : Rgb) : Rgb :=
  ⟨endRgb.r - startRgb.r, endRgb.g - startRgb.g, endRgb.b - startRgb.b⟩

/-- The `startToEndLengthSquared` value precomputed by `findColorsInRange`
(line 888). -/
def lengthSquared (v : Rgb) : ℚ := v.r * v.r + v.g * v.g + v.b * v.b

/-- Embedding of `isColorInRangeOptimized(pixelRgb, startRgb, endRgb, startToEnd,
startToEndLengthSquared, isSameColor, tolerance)` of src/unnamed/part_001
(lines 943-989).  The source compares Euclidean distances obtained from
`Math.sqrt`; to stay inside ℚ the embedding compares squares:
`sqrt d ≤ t` is written `0 ≤ t ∧ d ≤ t²`, and, for the `rangeLength * 0.2`
arm of the dynamic tolerance, `sqrt d ≤ sqrt L * 0.2` is written
`25 * d ≤ L`.  `isColorInRangeOptimized_spec` proves the embedding
equivalent to the literal square-root formulation over ℝ. -/
def isColorInRangeOptimized (pixelRgb startRgb endRgb startToEnd : Rgb)
    (startToEndLengthSquared : ℚ) (isSameColor : Bool) (tolerance : ℚ) : Bool :=
  if isSameColor then
    decide (0 ≤ tolerance ∧
      (pixelRgb.r - startRgb.r) ^ 2 + (pixelRgb.g - startRgb.g) ^ 2 +
        (pixelRgb.b - startRgb.b) ^ 2 ≤ tolerance ^ 2)
  else
    let dotProduct := (pixelRgb.r - startRgb.r) * startToEnd.r +
      (pixelRgb.g - startRgb.g) * startToEnd.g +
      (pixelRgb.b - startRgb.b) * startToEnd.b
    let projectionRatio := dotProduct / startToEndLengthSquared
    if 0 ≤ projectionRatio ∧ projectionRatio ≤ 1 then
      let d2 := (pixelRgb.r - (startRgb.r + projectionRatio * startToEnd.r)) ^ 2 +
        (pixelRgb.g - (startRgb.g + projectionRatio * startToEnd.g)) ^ 2 +
        (pixelRgb.b - (startRgb.b + projectionRatio * startToEnd.b)) ^ 2
      decide ((0 ≤ tolerance * (1/2) ∧ d2 ≤ (tolerance * (1/2)) ^ 2) ∨
        ((0 ≤ tolerance * (3/2) ∧ d2 ≤ (tolerance * (3/2)) ^ 2) ∧
          25 * d2 ≤ startToEndLengthSquared))
    else false

/-- Matching criterion of the spec, stated literally over ℝ: the scalar
projection `t` of the pixel onto the start-end segment lies in `[0,1]` and
the perpendicular distance of the pixel to the projected point is at most
the dynamic tolerance `max(tol*0.5, min(tol*1.5, segmentLength*0.2))`. -/
def IsColorInRangeSpec (pixelRgb startRgb endRgb : Rgb) (tolerance : ℚ) : Prop :=
  let dr : ℝ := (endRgb.r : ℝ) - (startRgb.r : ℝ)
  let dg : ℝ := (endRgb.g : ℝ) - (startRgb.g : ℝ)
  let db : ℝ := (endRgb.b : ℝ) - (startRgb.b : ℝ)
  let len2 : ℝ := dr ^ 2 + dg ^ 2 + db ^ 2
  let t : ℝ := (((pixelRgb.r : ℝ) - (startRgb.r : ℝ)) * dr +
    ((pixelRgb.g : ℝ) - (startRgb.g : ℝ)) * dg +
    ((pixelRgb.b : ℝ) - (startRgb.b : ℝ)) * db) / len2
  let dist : ℝ := Real.sqrt (((pixelRgb.r : ℝ) - ((startRgb.r : ℝ) + t * dr)) ^ 2 +
    ((pixelRgb.g : ℝ) - ((startRgb.g : ℝ) + t * dg)) ^ 2 +
    ((pixelRgb.b : ℝ) - ((startRgb.b : ℝ) + t * db)) ^ 2)
  0 ≤ t ∧ t ≤ 1 ∧
    dist ≤ max ((tolerance : ℝ) * (1/2))
      (min ((tolerance : ℝ) * (3/2)) (Real.sqrt len2 * (1/5)))

/-- One matched color group of `findColorsInRange`: the exact pixel color
with the recorded positions.  A position is the flat RGBA byte offset `i` of
the pixel (the source also stores `x`/`y`, which are derived from `i` and
unused by the replacement routine). -/
structure ColorGroup where
  rgb : Rgb
  positions : List ℕ
deriving DecidableEq, Repr

/-- Recording one matched pixel in the `colorMap` of `findColorsInRange`:
the first occurrence of a color appends a fresh group (JS `Map` iteration
preserves insertion order), a later occurrence appends the position to the
existing group. -/
def addToColorMap : List ColorGroup → Rgb → ℕ → List ColorGroup
  | [], rgb, idx => [⟨rgb, [idx]⟩]
  | g :: gs, rgb, idx =>
      if g.rgb = rgb then ⟨g.rgb, g.positions ++ [idx]⟩ :: gs
      else g :: addToColorMap gs rgb idx

/-- The pixel loop of `findColorsInRange` (src/unnamed/part_001, lines
892-924): walk the buffer in order, process only non-transparent pixels
(`a > 0`), test each with `isColorInRangeOptimized` and group matches by
exact color.  `i` counts pixels, `4*i` is the recorded flat byte index. -/
def scanColorsGo (startRgb endRgb dir : Rgb) (len2 : ℚ) (isSame : Bool)
    (tol : ℚ) (acc : List ColorGroup) (i : ℕ) : List Pixel → List ColorGroup
  | [] => acc
  | p :: rest =>
      let acc' :=
        if 0 < p.a then
          if isColorInRangeOptimized ⟨p.r, p.g, p.b⟩ startRgb endRgb dir len2
              isSame tol then
            addToColorMap acc ⟨p.r, p.g, p.b⟩ (4 * i)
          else acc
        else acc
      scanColorsGo startRgb endRgb dir len2 isSame tol acc' (i + 1) rest

/-- The cache-miss path of `findColorsInRange`: scan the whole canvas with
the precomputed segment data. -/
def scanColorsInRange (canvas : List Pixel) (startRgb endRgb : Rgb)
    (tolerance : ℚ) : List ColorGroup :=
  scanColorsGo startRgb endRgb (startToEndOf startRgb endRgb)
    (lengthSquared (startToEndOf startRgb endRgb))
    (decide (lengthSquared (startToEndOf startRgb endRgb) = 0))
    tolerance [] 0 canvas

/-- The components of the `colorCache` key string
`${startColor}-${endColor}-${tolerance}-${width}-${height}` of
`findColorsInRange` (line 867): the two range colors, the tolerance and the
canvas dimensions — and nothing derived from the pixel contents. -/
structure ColorCacheKey where
  startColor : Rgb
  endColor : Rgb
  tolerance : ℚ
  width : ℕ
  height : ℕ
deriving DecidableEq, Repr

/-- Lookup in the style of `Map.get` on an insertion-ordered association list. -/
def mapLookup {α β : Type} [DecidableEq α] (k : α) : List (α × β) → Option β
  | [] => none
  | (k', v) :: rest => if k' = k then some v else mapLookup k rest

/-- A history entry of `colorReplaceHistory`, as assembled by
`applyColorReplaceEffect` (src/unnamed/part_001, lines 609-623):
`originalImageData` is the full pre-replacement snapshot, `colorsInRange`
the per-color summary (`hex` and position count). -/
structure ChangeRecord where
  id : ℕ
  startColor : Rgb
  endColor : Rgb
  targetStartColor : Rgb
  targetEndColor : Rgb
  mixRatio : ℚ
  tolerance : ℚ
  replacedPixels : ℕ
  originalImageData : List Pixel
  colorsInRange : List (Rgb × ℕ)
deriving DecidableEq, Repr

/-- Mutable module state of the color-replacement module: the canvas pixels
(read through `ctx.getImageData`, written through `ctx.putImageData`), the
canvas dimensions, `colorReplaceHistory`, `currentEditingIndex` and the
module-level `colorCache`. -/
structure ColorReplaceState where
  canvas : List Pixel
  width : ℕ
  height : ℕ
  colorReplaceHistory : List ChangeRecord
  currentEditingIndex : ℤ
  colorCache : List (ColorCacheKey × List ColorGroup)
deriving Repr

/-- Embedding of `findColorsInRange(startColor, endColor, tolerance)` of
src/unnamed/part_001 (lines 862-930): build the cache key from colors,
tolerance and canvas dimensions, return the cached groups on a hit, and on
a miss scan the current canvas and store the result in the cache. -/
def findColorsInRange (st : ColorReplaceState) (startColor endColor : Rgb)
    (tolerance : ℚ) : List ColorGroup × ColorReplaceState :=
  let cacheKey : ColorCacheKey :=
    ⟨startColor, endColor, tolerance, st.width, st.height⟩
  match mapLookup cacheKey st.colorCache with
  | some v => (v, st)
  | none =>
      let colorsInRange := scanColorsInRange st.canvas startColor endColor tolerance
      (colorsInRange,
        { st with colorCache := st.colorCache ++ [(cacheKey, colorsInRange)] })

/-- Embedding of `clearColorCache()` of src/unnamed/part_001 (lines 1248-1250). -/
def clearColorCache (st : ColorReplaceState) : ColorReplaceState :=
  { st with colorCache := [] }

/-- Embedding of `calculateColorPosition(pixelRgb, startRgb, endRgb)` (lines 1127-1155):
scalar projection onto the start-end segment, clamped to `[0,1]`, `0` for a
degenerate segment. -/
def calculateColorPosition (pixelRgb startRgb endRgb : Rgb) : ℚ :=
  let d := startToEndOf startRgb endRgb
  let dotProduct := (pixelRgb.r - startRgb.r) * d.r +
    (pixelRgb.g - startRgb.g) * d.g + (pixelRgb.b - startRgb.b) * d.b
  let len2 := d.r * d.r + d.g * d.g + d.b * d.b
  if len2 = 0 then 0
  else max 0 (min 1 (dotProduct / len2))

/-- Embedding of `interpolateColor(color1, color2, ratio)` (lines 1164-1170).  JS
`Math.round` is `⌊x + 1/2⌋`, which is Mathlib's `round` on ℚ. -/
def interpolateColor (color1 color2 : Rgb) (ratio : ℚ) : Rgb :=
  ⟨((round (color1.r + (color2.r - color1.r) * ratio) : ℤ) : ℚ),
   ((round (color1.g + (color2.g - color1.g) * ratio) : ℤ) : ℚ),
   ((round (color1.b + (color2.b - color1.b) * ratio) : ℤ) : ℚ)⟩

/-- Embedding of `mixColors(color1, color2, ratio)` (lines 1179-1185). -/
def mixColors (color1 color2 : Rgb) (ratio : ℚ) : Rgb :=
  ⟨((round (color1.r + (color2.r - color1.r) * ratio) : ℤ) : ℚ),
   ((round (color1.g + (color2.g - color1.g) * ratio) : ℤ) : ℚ),
   ((round (color1.b + (color2.b - color1.b) * ratio) : ℤ) : ℚ)⟩

/-- The per-position write of `applyColorReplaceToImageData` (lines
1103-1110): store the final color channels at the pixel holding flat byte
offset `index` (pixel number `index / 4`) through the clamped byte store and
leave its alpha byte untouched.  An out-of-range index is a no-op, as on a
typed array. -/
def writeRgbAt (data : List Pixel) (index : ℕ) (c : Rgb) : List Pixel :=
  data.set (index / 4)
    { r := jsByteStore c.r, g := jsByteStore c.g, b := jsByteStore c.b,
      a := (data.getD (index / 4) default).a }

/-- Embedding of `applyColorReplaceToImageData(imageData, colorsInRange, startColor,
endColor, targetStartColor, targetEndColor, mixRatio)` of
src/unnamed/part_001 (lines 1066-1118): for every matched color group
compute the projection of the group color, interpolate the target color,
mix with the original by `mixRatio`, write it at every recorded position and
count the writes.  Returns the updated buffer and `replacedPixels`. -/
def applyColorReplaceToImageData (data : List Pixel)
    (colorsInRange : List ColorGroup) (startRgb endRgb targetStartRgb
    targetEndRgb : Rgb) (mixRatio : ℚ) : List Pixel × ℕ :=
  colorsInRange.foldl (fun acc color =>
    let positionRatio := calculateColorPosition color.rgb startRgb endRgb
    let targetRgb := interpolateColor targetStartRgb targetEndRgb positionRatio
    let finalRgb := mixColors color.rgb targetRgb mixRatio
    color.positions.foldl
      (fun acc2 pos => (writeRgbAt acc2.1 pos finalRgb, acc2.2 + 1)) acc)
    (data, 0)

/-- Embedding of `applyColorReplaceEffect()` of src/unnamed/part_001 (lines 552-643):
find the matching groups (possibly from the cache), bail out when none
match, otherwise snapshot the canvas, apply the replacement, push (or, in
editing mode, overwrite) the history record, and refresh the UI — which
clears the color cache (`updateUIComponents` calls `clearColorCache`).
`now` is `Date.now()`. -/
def applyColorReplaceEffect (st : ColorReplaceState) (now : ℕ)
    (startColor endColor targetStartColor targetEndColor : Rgb)
    (mixRatio tolerance : ℚ) : ColorReplaceState :=
  let found := findColorsInRange st startColor endColor tolerance
  let colorsInRange := found.1
  let st1 := found.2
  if colorsInRange = [] then st1
  else
    let imageData := st1.canvas
    let originalImageData := imageData
    let applied := applyColorReplaceToImageData imageData colorsInRange
      startColor endColor targetStartColor targetEndColor mixRatio
    let changeRecord : ChangeRecord :=
      { id := now, startColor := startColor, endColor := endColor,
        targetStartColor := targetStartColor, targetEndColor := targetEndColor,
        mixRatio := mixRatio, tolerance := tolerance,
        replacedPixels := applied.2, originalImageData := originalImageData,
        colorsInRange := colorsInRange.map (fun c => (c.rgb, c.positions.length)) }
    if 0 ≤ st1.currentEditingIndex then
      { st1 with
          canvas := applied.1,
          colorReplaceHistory :=
            st1.colorReplaceHistory.set st1.currentEditingIndex.toNat changeRecord,
          currentEditingIndex := -1,
          colorCache := [] }
    else
      { st1 with
          canvas := applied.1,
          colorReplaceHistory := st1.colorReplaceHistory ++ [changeRecord],
          colorCache := [] }

/-- Embedding of `undoLastColorReplace()` of src/unnamed/part_001 (lines 648-677): do
nothing on an empty history, otherwise restore the most recent entry's
snapshot to the canvas, pop the entry, and refresh the UI (which clears the
color cache). -/
def undoLastColorReplace (st : ColorReplaceState) : ColorReplaceState :=
  match st.colorReplaceHistory.getLast? with
  | none => st
  | some lastChange =>
      { st with
          canvas := lastChange.originalImageData,
          colorReplaceHistory := st.colorReplaceHistory.dropLast,
          colorCache := [] }

/-- Indexed map over a pixel list, embedding a loop that recomputes the
pixel at every index; `i` is the index of the list head. -/
def pixelMapIdx (f : ℕ → Pixel → Pixel) : ℕ → List Pixel → List Pixel
  | _, [] => []
  | i, p :: rest => f i p :: pixelMapIdx f (i + 1) rest

/-- Embedding of `findKthSmallest(arr, k)` of the worker (src/unnamed/part_005, lines
135-167).  The source runs quickselect (`quickselect`/`partition`) on a
copy of the array; its result is the `k`-th element in sorted order, which
the embedding reads off the sorted list directly. -/
def findKthSmallest (arr : List ℚ) (k : ℕ) : ℚ :=
  (arr.insertionSort (· ≤ ·)).getD k 0

/-- Embedding of `applyMedianFilterOptimized({imageData, width, height, radius})` of the
worker (src/unnamed/part_005, lines 91-132): every interior pixel gets the
per-channel median of its `(2*radius+1)²` neighborhood and keeps its alpha
(`result[index+3] = imageData[index+3]`); border pixels stay copies of the
input, since `result` starts as a copy of `imageData`. -/
def applyMedianFilterOptimized (imageData : List Pixel)
    (width height radius : ℕ) : List Pixel :=
  pixelMapIdx (fun i p =>
    let x := i % width
    let y := i / width
    if radius ≤ y ∧ y < height - radius ∧ radius ≤ x ∧ x < width - radius then
      let offs := (List.range (2 * radius + 1)).map (fun k => (k : ℤ) - radius)
      let neighborIdxs := offs.flatMap (fun ky => offs.map (fun kx =>
        (((y : ℤ) + ky) * width + ((x : ℤ) + kx)).toNat))
      let rValues := neighborIdxs.map (fun j => (imageData.getD j default).r)
      let gValues := neighborIdxs.map (fun j => (imageData.getD j default).g)
      let bValues := neighborIdxs.map (fun j => (imageData.getD j default).b)
      let midIndex := rValues.length / 2
      { r := jsByteStore (findKthSmallest rValues midIndex),
        g := jsByteStore (findKthSmallest gValues midIndex),
        b := jsByteStore (findKthSmallest bValues midIndex),
        a := p.a }
    else p) 0 imageData

/-- One stored value of a Gaussian pass:
`Math.min(255, Math.max(0, Math.round(sum / weightSum)))`.  The result is an
integer in `[0,255]`, which the typed-array store keeps unchanged. -/
def gaussStore (x : ℚ) : ℚ := min 255 (max 0 ((round x : ℤ) : ℚ))

/-- Horizontal pass of `applyGaussianFilterOptimized` (src/unnamed/part_005,
lines 183-204) at pixel `(x, y)`: weighted sum over the row with the column
clamped to `[0, width-1]`, alpha copied from the input pixel
(`tempBuffer[index+3] = imageData[index+3]`). -/
def gaussHorizontalAt (imageData : List Pixel) (width radius : ℕ)
    (kernel : List ℚ) (x y : ℕ) : Pixel :=
  let ks := List.range (2 * radius + 1)
  let idxAt : ℕ → ℕ := fun k =>
    let kx := (k : ℤ) - radius
    let nx := (min (max ((x : ℤ) + kx) 0) ((width : ℤ) - 1)).toNat
    y * width + nx
  let weightSum := (ks.map (fun k => kernel.getD k 0)).sum
  let r := (ks.map (fun k => (imageData.getD (idxAt k) default).r * kernel.getD k 0)).sum
  let g := (ks.map (fun k => (imageData.getD (idxAt k) default).g * kernel.getD k 0)).sum
  let b := (ks.map (fun k => (imageData.getD (idxAt k) default).b * kernel.getD k 0)).sum
  { r := gaussStore (r / weightSum), g := gaussStore (g / weightSum),
    b := gaussStore (b / weightSum),
    a := (imageData.getD (y * width + x) default).a }

/-- Vertical pass of `applyGaussianFilterOptimized` (src/unnamed/part_005,
lines 207-228) at pixel `(x, y)`: weighted sum over the column with the row
clamped to `[0, height-1]`, alpha copied from the horizontal-pass buffer
(`result[index+3] = tempBuffer[index+3]`). -/
def gaussVerticalAt (tempBuffer : List Pixel) (width height radius : ℕ)
    (kernel : List ℚ) (x y : ℕ) : Pixel :=
  let ks := List.range (2 * radius + 1)
  let idxAt : ℕ → ℕ := fun k =>
    let ky := (k : ℤ) - radius
    let ny := (min (max ((y : ℤ) + ky) 0) ((height : ℤ) - 1)).toNat
    ny * width + x
  let weightSum := (ks.map (fun k => kernel.getD k 0)).sum
  let r := (ks.map (fun k => (tempBuffer.getD (idxAt k) default).r * kernel.getD k 0)).sum
  let g := (ks.map (fun k => (tempBuffer.getD (idxAt k) default).g * kernel.getD k 0)).sum
  let b := (ks.map (fun k => (tempBuffer.getD (idxAt k) default).b * kernel.getD k 0)).sum
  { r := gaussStore (r / weightSum), g := gaussStore (g / weightSum),
    b := gaussStore (b / weightSum),
    a := (tempBuffer.getD (y * width + x) default).a }

/-- Embedding of `applyGaussianFilterOptimized({imageData, width, height, sigma})` of the
worker (src/unnamed/part_005, lines 170-235): a horizontal pass into
`tempBuffer` followed by a vertical pass, every pixel of the `width*height`
grid being written in both passes.  `radius` and `kernel` stand for the
values the source derives from `sigma` through `Math.ceil(sigma*3)` and
`createGaussianKernel` (`Math.exp`, transcendental); their numeric content
is irrelevant to the properties proved here. -/
def applyGaussianFilterOptimized (imageData : List Pixel)
    (width height radius : ℕ) (kernel : List ℚ) : List Pixel :=
  let tempBuffer := (List.range (width * height)).map (fun i =>
    gaussHorizontalAt imageData width radius kernel (i % width) (i / width))
  (List.range (width * height)).map (fun i =>
    gaussVerticalAt tempBuffer width height radius kernel (i % width) (i / width))

/-- An RGBA byte quadruple as the histogram units read it.  A decoded canvas
buffer has every component `< 256`. -/
structure Rgba8 where
  r : ℕ
  g : ℕ
  b : ℕ
  a : ℕ
deriving DecidableEq, Repr, Inhabited

/-- One bucket of the 256-entry array built by `calculateHistogram`:
`{r: 0, g: 0, b: 0, l: 0}` counts. -/
structure HistBucket where
  r : ℕ
  g : ℕ
  b : ℕ
  l : ℕ
deriving DecidableEq, Repr, Inhabited

/-- In-place update of one array slot, `histogram[i] = f(histogram[i])`. -/
def listModify {α : Type} (f : α → α) : ℕ → List α → List α
  | _, [] => []
  | 0, x :: xs => f x :: xs
  | n + 1, x :: xs => x :: listModify f n xs

/-- The luminance bucket `Math.round(0.299*r + 0.587*g + 0.114*b)` of
`calculateHistogram` (src/unnamed/part_003, line 80).  JS `Math.round` is
`⌊x + 1/2⌋`, Mathlib's `round`; the value is nonnegative, so `toNat` is
exact. -/
def lumaRec601 (r g b : ℕ) : ℕ :=
  (round ((299/1000) * (r : ℚ) + (587/1000) * (g : ℚ) +
    (114/1000) * (b : ℚ))).toNat

/-- Loop body of `calculateHistogram` (src/unnamed/part_003, lines 75-86):
`histogram[r].r++; histogram[g].g++; histogram[b].b++; histogram[l].l++`. -/
def calcHistStep (h : List HistBucket) (p : Rgba8) : List HistBucket :=
  let h1 := listModify (fun bk => { bk with r := bk.r + 1 }) p.r h
  let h2 := listModify (fun bk => { bk with g := bk.g + 1 }) p.g h1
  let h3 := listModify (fun bk => { bk with b := bk.b + 1 }) p.b h2
  listModify (fun bk => { bk with l := bk.l + 1 }) (lumaRec601 p.r p.g p.b) h3

/-- Embedding of `calculateHistogram(imageData)` of src/unnamed/part_003 (lines 44-113):
256 buckets initialized to zero and one counting pass over every pixel (the
small-image and large-image branches run the identical loop).  The
`calculateDataHash` cache in front of the loop only short-circuits
recomputation of an unchanged buffer and is not part of the counting. -/
def calculateHistogram (data : List Rgba8) : List HistBucket :=
  data.foldl calcHistStep (List.replicate 256 ⟨0, 0, 0, 0⟩)

/-- Result record of the worker's `computeHistogram`: four 256-bucket count
arrays. -/
structure HistogramW where
  red : List ℕ
  green : List ℕ
  blue : List ℕ
  luminance : List ℕ
deriving DecidableEq, Repr

/-- The worker's luminance bucket
`Math.round(0.2126*r + 0.7152*g + 0.0722*b)` (ITU-R BT.709,
src/unnamed/part_005, line 284). -/
def lumaBT709 (r g b : ℕ) : ℕ :=
  (round ((2126/10000) * (r : ℚ) + (7152/10000) * (g : ℚ) +
    (722/10000) * (b : ℚ))).toNat

/-- Loop body of the worker's `computeHistogram` (src/unnamed/part_005,
lines 269-286): pixels with `a < 128` are skipped
(`if (a < 128) continue`), the rest bump the four channel counts. -/
def computeHistStep (h : HistogramW) (p : Rgba8) : HistogramW :=
  if p.a < 128 then h
  else
    { red := listModify (· + 1) p.r h.red,
      green := listModify (· + 1) p.g h.green,
      blue := listModify (· + 1) p.b h.blue,
      luminance := listModify (· + 1) (lumaBT709 p.r p.g p.b) h.luminance }

/-- Embedding of `computeHistogram({imageData, width, height})` of the worker
(src/unnamed/part_005, lines 259-299). -/
def computeHistogram (data : List Rgba8) : HistogramW :=
  data.foldl computeHistStep
    ⟨List.replicate 256 0, List.replicate 256 0,
     List.replicate 256 0, List.replicate 256 0⟩

/-- The three cache maps of `PerformanceOptimizer` (`this.cache.imageData`,
`.processed`, `.operations`).  The shared `timestamps` map keys its entries
by the string `${type}_${key}`; none of the three type names is a prefix of
another, so that string corresponds exactly to the pair `(type, key)`. -/
inductive CacheType
  | imageData
  | processed
  | operations
deriving DecidableEq, Repr

/-- The `this.cacheConfig` record of `PerformanceOptimizer` (defaults
`maxSize: 5, ttl: 300000, enabled: true`; `configureCache` overrides). -/
structure CacheConfig where
  maxSize : ℕ
  ttl : ℕ
  enabled : Bool
deriving DecidableEq, Repr

/-- Semantics of `Map.set`: replace the value in place when the key is present (the key
keeps its insertion position), append otherwise. -/
def mapSet {α β : Type} [DecidableEq α] (k : α) (v : β) :
    List (α × β) → List (α × β)
  | [] => [(k, v)]
  | (k', v') :: rest =>
      if k' = k then (k', v) :: rest else (k', v') :: mapSet k v rest

/-- Semantics of `Map.delete` on a map with unique keys: drop the entry. -/
def mapDelete {α β : Type} [DecidableEq α] (k : α) :
    List (α × β) → List (α × β)
  | [] => []
  | (k', v') :: rest =>
      if k' = k then rest else (k', v') :: mapDelete k rest

/-- The caching state of a `PerformanceOptimizer` instance: the typed entry
maps (merged into one association list keyed by `(type, key)`, which keeps
each type's insertion order), the shared `timestamps` map in global
insertion order, and the configuration. -/
structure OptimizerCacheState (V : Type) where
  entries : List ((CacheType × String) × V)
  timestamps : List ((CacheType × String) × ℕ)
  config : CacheConfig

/-- The per-type entry count `this.cache[type].size`. -/
def cacheSize {V : Type} (st : OptimizerCacheState V) (ty : CacheType) : ℕ :=
  (st.entries.filter (fun e => e.1.1 = ty)).length

/-- One iteration of the `forEach` of `getOldestCacheKey`: entries of other
types are skipped; a first matching entry always beats the initial
`oldestTime = Infinity`; later matching entries win only with a strictly
smaller timestamp. -/
def getOldestStep (ty : CacheType) (acc : Option (String × ℕ))
    (kv : (CacheType × String) × ℕ) : Option (String × ℕ) :=
  if kv.1.1 = ty then
    match acc with
    | none => some (kv.1.2, kv.2)
    | some (k, t) => if kv.2 < t then some (kv.1.2, kv.2) else some (k, t)
  else acc

/-- Embedding of `getOldestCacheKey(type)` of src/Files/PerformanceOptimizer.js (lines
137-151): iterate `this.cache.timestamps` in insertion order, keep the entry
of the requested type with the strictly smallest timestamp (`oldestTime`
starts at `Infinity`, comparison is `<`, so the first entry wins ties). -/
def getOldestCacheKey (timestamps : List ((CacheType × String) × ℕ))
    (ty : CacheType) : Option String :=
  (timestamps.foldl (getOldestStep ty) none).map Prod.fst

/-- Embedding of `setCache(key, value, type)` of src/Files/PerformanceOptimizer.js
(lines 94-110): no-op when caching is disabled or the key is falsy; when the
type's map already holds `maxSize` or more entries, delete the
oldest-timestamped key of that type from the entry map and the timestamp
map; then store the value and stamp it with `Date.now()` (`now`). -/
def setCache {V : Type} (st : OptimizerCacheState V) (key : String) (value : V)
    (ty : CacheType) (now : ℕ) : OptimizerCacheState V :=
  if st.config.enabled = false ∨ key = "" then st
  else
    let st1 :=
      if st.config.maxSize ≤ cacheSize st ty then
        match getOldestCacheKey st.timestamps ty with
        | some oldestKey =>
            { st with
                entries := mapDelete (ty, oldestKey) st.entries,
                timestamps := mapDelete (ty, oldestKey) st.timestamps }
        | none => st
      else st
    { st1 with
        entries := mapSet (ty, key) value st1.entries,
        timestamps := mapSet (ty, key) now st1.timestamps }

/-- Embedding of `getCache(key, type)` of src/Files/PerformanceOptimizer.js (lines
113-134): `null` when disabled, the key is falsy, or the type's map has no
entry; a present entry whose (truthy) timestamp is older than `ttl` is
removed lazily and reads as `null`; otherwise the timestamp is refreshed to
`now` (sliding expiry) and the value returned. -/
def getCache {V : Type} (st : OptimizerCacheState V) (key : String)
    (ty : CacheType) (now : ℕ) : Option V × OptimizerCacheState V :=
  if st.config.enabled = false ∨ key = "" ∨
      (mapLookup (ty, key) st.entries).isNone then
    (none, st)
  else
    match mapLookup (ty, key) st.timestamps with
    | some ts =>
        if ts ≠ 0 ∧ st.config.ttl < now - ts then
          (none,
           { st with
               entries := mapDelete (ty, key) st.entries,
               timestamps := mapDelete (ty, key) st.timestamps })
        else
          (mapLookup (ty, key) st.entries,
           { st with timestamps := mapSet (ty, key) now st.timestamps })
    | none =>
        (mapLookup (ty, key) st.entries,
         { st with timestamps := mapSet (ty, key) now st.timestamps })

/-- A queued task of the `ImageProcessor` (src/Files/PerformanceOptimizer.js,
`addTask`, lines 494-512): `taskId`, the task-type string and the task data,
of which only the image bytes matter to `generateCacheKey`. -/
structure WorkerTask where
  taskId : ℕ
  taskType : String
  imageData : Option (List ℕ)
deriving DecidableEq, Repr

/-- A message posted by the worker, as destructured by `handleWorkerMessage`
(`const { taskId, success, result, error, progress, complete } = e.data`).
`taskId` is `none` when the worker did not echo one: the worker's catch-all
failure reply `self.postMessage({success: false, error: error.message})`
and its unknown-task reply (src/unnamed/part_005, lines 26-30) both omit
it. -/
structure WorkerMessage where
  taskId : Option ℕ
  success : Bool
  result : Option (List ℕ)
  error : Option String
  progress : Option ℕ
  complete : Bool
deriving DecidableEq, Repr

/-- JS truthiness of the `error` field: present and a non-empty string. -/
def errTruthy : Option String → Bool
  | none => false
  | some s => decide (s ≠ "")

/-- Observable actions of the scheduler: a registered callback being called
(`isError` tells whether the response carried an error), and a task being
posted to the worker. -/
inductive SchedulerEvent
  | callbackInvoked (taskId : ℕ) (isError : Bool)
  | workerPosted (taskId : ℕ) (taskType : String)
deriving DecidableEq, Repr

/-- Scheduler state of an `ImageProcessor` instance: the FIFO `taskQueue`,
the `isProcessing` flag, the ids registered in the `callbacks` map, the
`resultCache` and the `taskIdCounter`. -/
structure ImageProcessorState where
  taskQueue : List WorkerTask
  isProcessing : Bool
  callbacks : List ℕ
  resultCache : List (String × List ℕ)
  taskIdCounter : ℕ
deriving DecidableEq, Repr

/-- JS `x | 0`: wrap to a signed 32-bit integer. -/
def toInt32 (n : ℤ) : ℤ := (n + 2 ^ 31) % 2 ^ 32 - 2 ^ 31

/-- The sampled rolling hash of the `ImageProcessor`'s `generateCacheKey`
(src/Files/PerformanceOptimizer.js, lines 550-555): over indices
`0, 4, 8, …` below `min(1000, length)`,
`hash = ((hash << 5) - hash) + imageData[i]; hash |= 0` — the shift wraps to
int32 on its own before the subtraction, and `|= 0` wraps the result. -/
def jsSampleHash (bytes : List ℕ) : ℤ :=
  ((List.range ((min 1000 bytes.length + 3) / 4)).map (· * 4)).foldl
    (fun h i => toInt32 (toInt32 (h * 32) - h + (bytes.getD i 0))) 0

/-- Embedding of `generateCacheKey(taskType, data)` of the `ImageProcessor`
(src/Files/PerformanceOptimizer.js, lines 545-560): only `computeHistogram`
tasks carrying image data get a key, `` `${taskType}_${hash}` ``; every
other task type yields `null`. -/
def generateCacheKey (taskType : String) (imageData : Option (List ℕ)) :
    Option String :=
  if taskType = "computeHistogram" then
    match imageData with
    | some bytes => some (taskType ++ "_" ++ toString (jsSampleHash bytes))
    | none => none
  else none

/-- The check `this.resultCache.has(cacheKey)` guarded by
`taskType !== 'processImage'`; `Map.has(null)` is false. -/
def taskCacheHit (st : ImageProcessorState) (task : WorkerTask) : Bool :=
  task.taskType ≠ "processImage" &&
    (match generateCacheKey task.taskType task.imageData with
     | some ck => (mapLookup ck st.resultCache).isSome
     | none => false)

/-- Embedding of `processNextTask()` of the `ImageProcessor`
(src/Files/PerformanceOptimizer.js, lines 515-542): return on an empty
queue; otherwise shift the first task; on a cache hit (never for
`processImage`) invoke its callback with the cached result, delete the
callback, and continue with the next task; otherwise mark processing and
post the task to the worker. -/
def processNextTask (st : ImageProcessorState) :
    ImageProcessorState × List SchedulerEvent :=
  match hq : st.taskQueue with
  | [] => (st, [])
  | task :: rest =>
      if taskCacheHit st task then
        let r := processNextTask
          { st with taskQueue := rest, callbacks := st.callbacks.erase task.taskId }
        (r.1, SchedulerEvent.callbackInvoked task.taskId false :: r.2)
      else
        ({ st with taskQueue := rest, isProcessing := true },
         [SchedulerEvent.workerPosted task.taskId task.taskType])
termination_by st.taskQueue.length
decreasing_by simp [hq]

/-- Embedding of `handleWorkerMessage(e)` of the `ImageProcessor`
(src/Files/PerformanceOptimizer.js, lines 461-483): the callback branch
fires only for a truthy echoed `taskId` with a registered callback — an
error response then calls and deletes the callback, a progress response
calls it, a completion calls and deletes it; afterwards, when the message
has `complete` or a truthy `error`, the in-flight flag is cleared and the
next queued task is dispatched. -/
def handleWorkerMessage (st : ImageProcessorState) (msg : WorkerMessage) :
    ImageProcessorState × List SchedulerEvent :=
  let cbStep : ImageProcessorState × List SchedulerEvent :=
    match msg.taskId with
    | some id =>
        if id ≠ 0 ∧ id ∈ st.callbacks then
          if errTruthy msg.error then
            ({ st with callbacks := st.callbacks.erase id },
             [SchedulerEvent.callbackInvoked id true])
          else if msg.progress.isSome then
            (st, [SchedulerEvent.callbackInvoked id false])
          else if msg.complete then
            ({ st with callbacks := st.callbacks.erase id },
             [SchedulerEvent.callbackInvoked id false])
          else (st, [])
        else (st, [])
    | none => (st, [])
  if msg.complete ∨ errTruthy msg.error = true then
    let r := processNextTask { cbStep.1 with isProcessing := false }
    (r.1, cbStep.2 ++ r.2)
  else cbStep

/-- The reply the worker posts when a task handler throws, and likewise for
an unknown task name: `{success: false, error: message}` with no `taskId`
echoed (src/unnamed/part_005, lines 26-30). -/
def workerFailureMessage (errMsg : String) : WorkerMessage :=
  ⟨none, false, none, some errMsg, none, false⟩

theorem clampChannel_nonneg (x : ℚ) : 0 ≤ clampChannel x := by
  unfold clampChannel
  exact le_min (by norm_num) (le_max_left 0 x)

theorem clampChannel_le (x : ℚ) : clampChannel x ≤ 255 := min_le_left _ _

theorem roundHalfEven_bounds {x : ℚ} (h0 : 0 ≤ x) (h255 : x ≤ 255) :
    0 ≤ roundHalfEven x ∧ roundHalfEven x ≤ 255 := by
  unfold roundHalfEven
  have hf0 : 0 ≤ ⌊x⌋ := Int.floor_nonneg.mpr h0
  have hfx : (⌊x⌋ : ℚ) ≤ x := Int.floor_le x
  have hfq : (⌊x⌋ : ℚ) ≤ 255 := le_trans hfx h255
  have hf255 : ⌊x⌋ ≤ 255 := by exact_mod_cast hfq
  constructor
  · split_ifs <;> omega
  · split_ifs with h1 h2 h3
    · exact hf255
    · have : (⌊x⌋ : ℚ) < 255 := by linarith
      have : ⌊x⌋ < 255 := by exact_mod_cast this
      omega
    · have hhalf : x - (⌊x⌋ : ℚ) = 1/2 := le_antisymm (not_lt.mp h2) (not_lt.mp h1)
      have : (⌊x⌋ : ℚ) < 255 := by linarith
      have : ⌊x⌋ < 255 := by exact_mod_cast this
      omega
    · have hhalf : x - (⌊x⌋ : ℚ) = 1/2 := le_antisymm (not_lt.mp h2) (not_lt.mp h1)
      have : (⌊x⌋ : ℚ) < 255 := by linarith
      have : ⌊x⌋ < 255 := by exact_mod_cast this
      omega

theorem jsByteStore_mem (x : ℚ) : 0 ≤ jsByteStore x ∧ jsByteStore x ≤ 255 := by
  have h := roundHalfEven_bounds (clampChannel_nonneg x) (clampChannel_le x)
  unfold jsByteStore
  exact ⟨by exact_mod_cast h.1, by exact_mod_cast h.2⟩

theorem adjustPixelChain_channelsInRange (s : ColorSettings)
    (cf ef sf : ℚ) (p : Pixel) : ChannelsInRange (adjustPixelChain s cf ef sf p) :=
  ⟨⟨(jsByteStore_mem _).1, (jsByteStore_mem _).2⟩,
   ⟨(jsByteStore_mem _).1, (jsByteStore_mem _).2⟩,
   ⟨(jsByteStore_mem _).1, (jsByteStore_mem _).2⟩⟩

theorem adjustPixelChain_alpha (s : ColorSettings) (cf ef sf : ℚ) (p : Pixel) :
    (adjustPixelChain s cf ef sf p).a = p.a := rfl

/-- C1: applying the color-grading pass with every stage at its identity value
(brightness 1.0, contrast 0, saturation 100, temperature 0, tint 0, exposure 0,
shadows 0, highlights 0, whites 100, no white-balance multiplier vector)
returns the buffer unchanged: the all-identity check at the top of
`applyColorAdjustments` fires and the pixel loop is skipped entirely. -/
theorem applyColorAdjustments_identity (pow2 : ℚ → ℚ) (data : List Pixel)
    (s : ColorSettings) (hb : s.bright = 1) (hc : s.contrast = 0)
    (hs : s.saturation = 100) (ht : s.temperature = 0) (hti : s.tint = 0)
    (he : s.exp_shift = 0) (hsh : s.shadows = 0) (hh : s.highlights = 0)
    (hw : s.whites = 100) (hu : s.user_mul = none) :
    applyColorAdjustments pow2 data s = data := by
  unfold applyColorAdjustments
  rw [if_pos]
  exact ⟨hb, hc, hs, ht, hti, he, by rw [hu]; rfl, hsh, hh, hw⟩

theorem applyColorAdjustments_identity_witness :
    applyColorAdjustments (fun _ => 1) [⟨10, 20, 30, 40⟩] identitySettings =
      [⟨10, 20, 30, 40⟩] :=
  applyColorAdjustments_identity (fun _ => 1) [⟨10, 20, 30, 40⟩]
    identitySettings rfl rfl rfl rfl rfl rfl rfl rfl rfl rfl

/-- C2: for every valid input buffer (all channels bytes) and every
combination of grading settings, every color channel of the buffer written
back by `applyColorAdjustments` lies in `[0,255]`: each stage clamps with
`min(255, max(0, ·))` and the write-back into the `Uint8ClampedArray`
clamps once more. -/
theorem applyColorAdjustments_output_in_range (pow2 : ℚ → ℚ)
    (data : List Pixel) (s : ColorSettings)
    (hdata : ∀ p ∈ data, ChannelsInRange p) :
    ∀ q ∈ applyColorAdjustments pow2 data s, ChannelsInRange q := by
  unfold applyColorAdjustments
  split
  · exact hdata
  · intro q hq
    rcases List.mem_map.mp hq with ⟨p, _, rfl⟩
    exact adjustPixelChain_channelsInRange _ _ _ _ _

theorem applyColorAdjustments_output_in_range_witness :
    List.Forall ChannelsInRange (applyColorAdjustments (fun _ => 4)
      [⟨10, 20, 30, 40⟩, ⟨250, 251, 252, 253⟩]
      { bright := 3, contrast := -300, saturation := 500, exp_shift := 2,
        shadows := -150, temperature := 80, tint := -90, highlights := 400,
        whites := -100, user_mul := some (2, 0, -1, 2) }) :=
  List.forall_iff_forall_mem.mpr
    (applyColorAdjustments_output_in_range _ _ _ (by
      intro p hp
      simp only [List.mem_cons, List.not_mem_nil, or_false] at hp
      rcases hp with rfl | rfl <;> norm_num [ChannelsInRange]))

theorem lengthSquared_nonneg (v : Rgb) : 0 ≤ lengthSquared v := by
  unfold lengthSquared
  have h1 := mul_self_nonneg v.r
  have h2 := mul_self_nonneg v.g
  have h3 := mul_self_nonneg v.b
  linarith

theorem lengthSquared_startToEndOf_eq_zero_iff (s e : Rgb) :
    lengthSquared (startToEndOf s e) = 0 ↔ s = e := by
  obtain ⟨sr, sg, sb⟩ := s
  obtain ⟨er, eg, eb⟩ := e
  unfold lengthSquared startToEndOf
  dsimp only
  constructor
  · intro h
    have h1 : (er - sr) * (er - sr) = 0 := by
      nlinarith [mul_self_nonneg (er - sr), mul_self_nonneg (eg - sg), mul_self_nonneg (eb - sb)]
    have h2 : (eg - sg) * (eg - sg) = 0 := by
      nlinarith [mul_self_nonneg (er - sr), mul_self_nonneg (eg - sg), mul_self_nonneg (eb - sb)]
    have h3 : (eb - sb) * (eb - sb) = 0 := by
      nlinarith [mul_self_nonneg (er - sr), mul_self_nonneg (eg - sg), mul_self_nonneg (eb - sb)]
    have hr := mul_self_eq_zero.mp h1
    have hg := mul_self_eq_zero.mp h2
    have hb := mul_self_eq_zero.mp h3
    simp only [Rgb.mk.injEq]
    exact ⟨by linarith, by linarith, by linarith⟩
  · intro h
    injection h with h1 h2 h3
    rw [h1, h2, h3]
    ring

theorem sqrt_ratCast_le_iff (d t : ℚ) :
    Real.sqrt (d : ℝ) ≤ (t : ℝ) ↔ 0 ≤ t ∧ d ≤ t ^ 2 := by
  rw [Real.sqrt_le_iff]
  constructor
  · rintro ⟨h1, h2⟩
    refine ⟨by exact_mod_cast h1, ?_⟩
    have : (d : ℝ) ≤ ((t ^ 2 : ℚ) : ℝ) := by push_cast; exact h2
    exact_mod_cast this
  · rintro ⟨h1, h2⟩
    refine ⟨by exact_mod_cast h1, ?_⟩
    have : ((d : ℚ) : ℝ) ≤ ((t ^ 2 : ℚ) : ℝ) := by exact_mod_cast h2
    push_cast at this
    exact this

theorem sqrt_ratCast_le_sqrt_mul_fifth (d L : ℚ) (hL : 0 ≤ L) :
    Real.sqrt (d : ℝ) ≤ Real.sqrt (L : ℝ) * (1/5) ↔ 25 * d ≤ L := by
  have h25 : ((1 : ℝ)/5) = Real.sqrt ((1 : ℝ)/25) := by
    rw [show ((1 : ℝ)/25) = (1/5) ^ 2 by norm_num, Real.sqrt_sq (by norm_num)]
  rw [h25, ← Real.sqrt_mul (by exact_mod_cast hL)]
  rw [Real.sqrt_le_sqrt_iff (by positivity)]
  constructor
  · intro h
    have : (d : ℝ) ≤ ((L / 25 : ℚ) : ℝ) := by push_cast; linarith
    have hq : d ≤ L / 25 := by exact_mod_cast this
    linarith
  · intro h
    have hq : d ≤ L / 25 := by linarith
    have : ((d : ℚ) : ℝ) ≤ ((L / 25 : ℚ) : ℝ) := by exact_mod_cast hq
    push_cast at this
    linarith

theorem matchCond_iff_sqrt (d2 L tol : ℚ) (hL : 0 ≤ L) :
    ((0 ≤ tol * (1/2) ∧ d2 ≤ (tol * (1/2)) ^ 2) ∨
      ((0 ≤ tol * (3/2) ∧ d2 ≤ (tol * (3/2)) ^ 2) ∧ 25 * d2 ≤ L)) ↔
    Real.sqrt (d2 : ℝ) ≤ max ((tol : ℝ) * (1/2))
      (min ((tol : ℝ) * (3/2)) (Real.sqrt (L : ℝ) * (1/5))) := by
  rw [le_max_iff, le_min_iff]
  rw [show ((tol : ℝ) * (1/2)) = ((tol * (1/2) : ℚ) : ℝ) by push_cast; ring]
  rw [show ((tol : ℝ) * (3/2)) = ((tol * (3/2) : ℚ) : ℝ) by push_cast; ring]
  rw [sqrt_ratCast_le_iff, sqrt_ratCast_le_iff,
    sqrt_ratCast_le_sqrt_mul_fifth d2 L hL]

theorem ite_decide_eq_true_iff (c d : Prop) [Decidable c] [Decidable d] :
    ((if c then decide d else false) = true) ↔ (c ∧ d) := by
  split_ifs with h
  · simp [h]
  · simp [h]

/-- C5: for a non-degenerate color-range segment (`start != end`), the
optimized matcher accepts a pixel exactly when its scalar projection `t`
onto the start-end segment lies in `[0,1]` and its perpendicular distance to
the projected point is at most the dynamic tolerance
`max(tol*0.5, min(tol*1.5, segmentLength*0.2))`, stated literally with
square roots over ℝ by `IsColorInRangeSpec`. -/
theorem isColorInRangeOptimized_spec (p s e : Rgb) (tol : ℚ) (hne : s ≠ e) :
    (isColorInRangeOptimized p s e (startToEndOf s e)
        (lengthSquared (startToEndOf s e))
        (decide (lengthSquared (startToEndOf s e) = 0)) tol = true) ↔
      IsColorInRangeSpec p s e tol := by
  have hL0 : ¬ lengthSquared (startToEndOf s e) = 0 :=
    fun h => hne ((lengthSquared_startToEndOf_eq_zero_iff s e).mp h)
  have hLnn : 0 ≤ lengthSquared (startToEndOf s e) := lengthSquared_nonneg _
  simp only [isColorInRangeOptimized, IsColorInRangeSpec, startToEndOf,
    lengthSquared] at hL0 hLnn ⊢
  rw [decide_eq_false hL0]
  simp only [Bool.false_eq_true, if_false]
  rw [ite_decide_eq_true_iff]
  have htR : (((p.r : ℝ) - (s.r : ℝ)) * ((e.r : ℝ) - (s.r : ℝ)) +
      ((p.g : ℝ) - (s.g : ℝ)) * ((e.g : ℝ) - (s.g : ℝ)) +
      ((p.b : ℝ) - (s.b : ℝ)) * ((e.b : ℝ) - (s.b : ℝ))) /
      (((e.r : ℝ) - (s.r : ℝ)) ^ 2 + ((e.g : ℝ) - (s.g : ℝ)) ^ 2 +
        ((e.b : ℝ) - (s.b : ℝ)) ^ 2) =
      ((((p.r - s.r) * (e.r - s.r) + (p.g - s.g) * (e.g - s.g) +
        (p.b - s.b) * (e.b - s.b)) /
        ((e.r - s.r) * (e.r - s.r) + (e.g - s.g) * (e.g - s.g) +
          (e.b - s.b) * (e.b - s.b)) : ℚ) : ℝ) := by
    push_cast
    ring
  rw [htR]
  have hDR : ((p.r : ℝ) - ((s.r : ℝ) +
        ((((p.r - s.r) * (e.r - s.r) + (p.g - s.g) * (e.g - s.g) +
          (p.b - s.b) * (e.b - s.b)) /
          ((e.r - s.r) * (e.r - s.r) + (e.g - s.g) * (e.g - s.g) +
            (e.b - s.b) * (e.b - s.b)) : ℚ) : ℝ) * ((e.r : ℝ) - (s.r : ℝ)))) ^ 2 +
      ((p.g : ℝ) - ((s.g : ℝ) +
        ((((p.r - s.r) * (e.r - s.r) + (p.g - s.g) * (e.g - s.g) +
          (p.b - s.b) * (e.b - s.b)) /
          ((e.r - s.r) * (e.r - s.r) + (e.g - s.g) * (e.g - s.g) +
            (e.b - s.b) * (e.b - s.b)) : ℚ) : ℝ) * ((e.g : ℝ) - (s.g : ℝ)))) ^ 2 +
      ((p.b : ℝ) - ((s.b : ℝ) +
        ((((p.r - s.r) * (e.r - s.r) + (p.g - s.g) * (e.g - s.g) +
          (p.b - s.b) * (e.b - s.b)) /
          ((e.r - s.r) * (e.r - s.r) + (e.g - s.g) * (e.g - s.g) +
            (e.b - s.b) * (e.b - s.b)) : ℚ) : ℝ) * ((e.b : ℝ) - (s.b : ℝ)))) ^ 2 =
      (((p.r - (s.r + ((p.r - s.r) * (e.r - s.r) + (p.g - s.g) * (e.g - s.g) +
          (p.b - s.b) * (e.b - s.b)) /
          ((e.r - s.r) * (e.r - s.r) + (e.g - s.g) * (e.g - s.g) +
            (e.b - s.b) * (e.b - s.b)) * (e.r - s.r))) ^ 2 +
        (p.g - (s.g + ((p.r - s.r) * (e.r - s.r) + (p.g - s.g) * (e.g - s.g) +
          (p.b - s.b) * (e.b - s.b)) /
          ((e.r - s.r) * (e.r - s.r) + (e.g - s.g) * (e.g - s.g) +
            (e.b - s.b) * (e.b - s.b)) * (e.g - s.g))) ^ 2 +
        (p.b - (s.b + ((p.r - s.r) * (e.r - s.r) + (p.g - s.g) * (e.g - s.g) +
          (p.b - s.b) * (e.b - s.b)) /
          ((e.r - s.r) * (e.r - s.r) + (e.g - s.g) * (e.g - s.g) +
            (e.b - s.b) * (e.b - s.b)) * (e.b - s.b))) ^ 2 : ℚ) : ℝ) := by
    push_cast
    ring
  rw [hDR]
  have hLR : ((e.r : ℝ) - (s.r : ℝ)) ^ 2 + ((e.g : ℝ) - (s.g : ℝ)) ^ 2 +
      ((e.b : ℝ) - (s.b : ℝ)) ^ 2 =
      (((e.r - s.r) * (e.r - s.r) + (e.g - s.g) * (e.g - s.g) +
        (e.b - s.b) * (e.b - s.b) : ℚ) : ℝ) := by
    push_cast
    ring
  rw [hLR]
  rw [← matchCond_iff_sqrt _ _ _ hLnn]
  constructor
  · rintro ⟨⟨h1, h2⟩, h3⟩
    exact ⟨by exact_mod_cast h1, by exact_mod_cast h2, h3⟩
  · rintro ⟨h1, h2, h3⟩
    exact ⟨⟨by exact_mod_cast h1, by exact_mod_cast h2⟩, h3⟩

theorem isColorInRangeOptimized_spec_witness :
    (isColorInRangeOptimized ⟨10, 20, 30⟩ ⟨0, 0, 0⟩ ⟨255, 0, 0⟩
        (startToEndOf ⟨0, 0, 0⟩ ⟨255, 0, 0⟩)
        (lengthSquared (startToEndOf ⟨0, 0, 0⟩ ⟨255, 0, 0⟩))
        (decide (lengthSquared (startToEndOf ⟨0, 0, 0⟩ ⟨255, 0, 0⟩) = 0)) 60 = true) ↔
      IsColorInRangeSpec ⟨10, 20, 30⟩ ⟨0, 0, 0⟩ ⟨255, 0, 0⟩ 60 :=
  isColorInRangeOptimized_spec ⟨10, 20, 30⟩ ⟨0, 0, 0⟩ ⟨255, 0, 0⟩ 60 (by
    intro h
    injection h with h1 h2 h3
    exact absurd h1 (by norm_num))

/-- C6: for a degenerate color-range segment (`start == end`, so the
precomputed `startToEnd` vector is zero, its squared length is `0` and
`isSameColor` is true) and a tolerance `tol ≥ 0`, the matcher accepts a
pixel exactly when its Euclidean RGB distance to the start color is at most
`tol`; in particular with `start = end = (255,0,0)` the pixel `(255,0,0)`
matches at tolerance 0, `(254,0,0)` does not match at tolerance 0, and
`(254,0,0)` matches at tolerance 1. -/
theorem isColorInRangeOptimized_degenerate (p s : Rgb) (tol : ℚ)
    (htol : 0 ≤ tol) :
    ((isColorInRangeOptimized p s s (startToEndOf s s)
        (lengthSquared (startToEndOf s s))
        (decide (lengthSquared (startToEndOf s s) = 0)) tol = true) ↔
      Real.sqrt (((p.r - s.r : ℚ) : ℝ) ^ 2 + ((p.g - s.g : ℚ) : ℝ) ^ 2 +
        ((p.b - s.b : ℚ) : ℝ) ^ 2) ≤ (tol : ℝ)) ∧
    (isColorInRangeOptimized ⟨255, 0, 0⟩ ⟨255, 0, 0⟩ ⟨255, 0, 0⟩
        (startToEndOf ⟨255, 0, 0⟩ ⟨255, 0, 0⟩)
        (lengthSquared (startToEndOf ⟨255, 0, 0⟩ ⟨255, 0, 0⟩))
        (decide (lengthSquared (startToEndOf ⟨255, 0, 0⟩ ⟨255, 0, 0⟩) = 0)) 0
      = true) ∧
    (isColorInRangeOptimized ⟨254, 0, 0⟩ ⟨255, 0, 0⟩ ⟨255, 0, 0⟩
        (startToEndOf ⟨255, 0, 0⟩ ⟨255, 0, 0⟩)
        (lengthSquared (startToEndOf ⟨255, 0, 0⟩ ⟨255, 0, 0⟩))
        (decide (lengthSquared (startToEndOf ⟨255, 0, 0⟩ ⟨255, 0, 0⟩) = 0)) 0
      = false) ∧
    (isColorInRangeOptimized ⟨254, 0, 0⟩ ⟨255, 0, 0⟩ ⟨255, 0, 0⟩
        (startToEndOf ⟨255, 0, 0⟩ ⟨255, 0, 0⟩)
        (lengthSquared (startToEndOf ⟨255, 0, 0⟩ ⟨255, 0, 0⟩))
        (decide (lengthSquared (startToEndOf ⟨255, 0, 0⟩ ⟨255, 0, 0⟩) = 0)) 1
      = true) := by
  refine ⟨?_, ?_, ?_, ?_⟩
  · have hsame : lengthSquared (startToEndOf s s) = 0 :=
      (lengthSquared_startToEndOf_eq_zero_iff s s).mpr rfl
    simp only [isColorInRangeOptimized]
    rw [decide_eq_true hsame]
    simp only [if_true]
    rw [decide_eq_true_iff]
    rw [show ((p.r - s.r : ℚ) : ℝ) ^ 2 + ((p.g - s.g : ℚ) : ℝ) ^ 2 +
        ((p.b - s.b : ℚ) : ℝ) ^ 2 =
        (((p.r - s.r) ^ 2 + (p.g - s.g) ^ 2 + (p.b - s.b) ^ 2 : ℚ) : ℝ) by
      push_cast; ring]
    rw [sqrt_ratCast_le_iff]
  · norm_num [isColorInRangeOptimized, startToEndOf, lengthSquared]
  · norm_num [isColorInRangeOptimized, startToEndOf, lengthSquared]
  · norm_num [isColorInRangeOptimized, startToEndOf, lengthSquared]

theorem isColorInRangeOptimized_degenerate_witness :
    ((isColorInRangeOptimized ⟨1, 2, 3⟩ ⟨4, 5, 6⟩ ⟨4, 5, 6⟩
        (startToEndOf ⟨4, 5, 6⟩ ⟨4, 5, 6⟩)
        (lengthSquared (startToEndOf ⟨4, 5, 6⟩ ⟨4, 5, 6⟩))
        (decide (lengthSquared (startToEndOf ⟨4, 5, 6⟩ ⟨4, 5, 6⟩) = 0)) 7
      = true) ↔
      Real.sqrt ((((1 : ℚ) - 4 : ℚ) : ℝ) ^ 2 + (((2 : ℚ) - 5 : ℚ) : ℝ) ^ 2 +
        (((3 : ℚ) - 6 : ℚ) : ℝ) ^ 2) ≤ ((7 : ℚ) : ℝ)) ∧
    (isColorInRangeOptimized ⟨255, 0, 0⟩ ⟨255, 0, 0⟩ ⟨255, 0, 0⟩
        (startToEndOf ⟨255, 0, 0⟩ ⟨255, 0, 0⟩)
        (lengthSquared (startToEndOf ⟨255, 0, 0⟩ ⟨255, 0, 0⟩))
        (decide (lengthSquared (startToEndOf ⟨255, 0, 0⟩ ⟨255, 0, 0⟩) = 0)) 0
      = true) ∧
    (isColorInRangeOptimized ⟨254, 0, 0⟩ ⟨255, 0, 0⟩ ⟨255, 0, 0⟩
        (startToEndOf ⟨255, 0, 0⟩ ⟨255, 0, 0⟩)
        (lengthSquared (startToEndOf ⟨255, 0, 0⟩ ⟨255, 0, 0⟩))
        (decide (lengthSquared (startToEndOf ⟨255, 0, 0⟩ ⟨255, 0, 0⟩) = 0)) 0
      = false) ∧
    (isColorInRangeOptimized ⟨254, 0, 0⟩ ⟨255, 0, 0⟩ ⟨255, 0, 0⟩
        (startToEndOf ⟨255, 0, 0⟩ ⟨255, 0, 0⟩)
        (lengthSquared (startToEndOf ⟨255, 0, 0⟩ ⟨255, 0, 0⟩))
        (decide (lengthSquared (startToEndOf ⟨255, 0, 0⟩ ⟨255, 0, 0⟩) = 0)) 1
      = true) :=
  isColorInRangeOptimized_degenerate ⟨1, 2, 3⟩ ⟨4, 5, 6⟩ 7 (by norm_num)

theorem findColorsInRange_snd_eq (st : ColorReplaceState)
    (startColor endColor : Rgb) (tolerance : ℚ) :
    (findColorsInRange st startColor endColor tolerance).2 =
      { st with colorCache :=
          (findColorsInRange st startColor endColor tolerance).2.colorCache } := by
  simp only [findColorsInRange]
  split <;> rfl

theorem applyColorReplaceToImageData_nil (data : List Pixel)
    (startRgb endRgb targetStartRgb targetEndRgb : Rgb) (mixRatio : ℚ) :
    applyColorReplaceToImageData data [] startRgb endRgb targetStartRgb
      targetEndRgb mixRatio = (data, 0) := rfl

/-- C4: applying a color-range replacement that changes at least one pixel
(`replacedPixels > 0`) outside editing mode and then undoing it restores the
canvas to the pre-apply snapshot exactly and removes the pushed entry from
the history list, leaving the history as it was. -/
theorem applyColorReplace_undo_roundTrip (st : ColorReplaceState) (now : ℕ)
    (startColor endColor targetStartColor targetEndColor : Rgb)
    (mixRatio tolerance : ℚ)
    (hedit : st.currentEditingIndex < 0)
    (hcount : 0 < (applyColorReplaceToImageData st.canvas
        (findColorsInRange st startColor endColor tolerance).1
        startColor endColor targetStartColor targetEndColor mixRatio).2) :
    (undoLastColorReplace (applyColorReplaceEffect st now startColor endColor
        targetStartColor targetEndColor mixRatio tolerance)).canvas = st.canvas ∧
    (undoLastColorReplace (applyColorReplaceEffect st now startColor endColor
        targetStartColor targetEndColor mixRatio tolerance)).colorReplaceHistory
      = st.colorReplaceHistory := by
  have hne : (findColorsInRange st startColor endColor tolerance).1 ≠ [] := by
    intro h0
    rw [h0, applyColorReplaceToImageData_nil] at hcount
    exact absurd hcount (by norm_num)
  have hst1 := findColorsInRange_snd_eq st startColor endColor tolerance
  simp only [applyColorReplaceEffect]
  rw [if_neg hne, hst1]
  rw [if_neg (by simpa using not_le.mpr hedit)]
  simp only [undoLastColorReplace]
  rw [List.getLast?_concat]
  simp only [List.dropLast_concat]
  constructor <;> first | rfl | trivial

theorem applyColorReplace_undo_roundTrip_witness :
    (undoLastColorReplace (applyColorReplaceEffect
        ⟨[⟨255, 0, 0, 255⟩], 1, 1, [], -1, []⟩ 17
        ⟨255, 0, 0⟩ ⟨255, 0, 0⟩ ⟨0, 0, 255⟩ ⟨0, 0, 255⟩ 1 0)).canvas =
      [⟨255, 0, 0, 255⟩] ∧
    (undoLastColorReplace (applyColorReplaceEffect
        ⟨[⟨255, 0, 0, 255⟩], 1, 1, [], -1, []⟩ 17
        ⟨255, 0, 0⟩ ⟨255, 0, 0⟩ ⟨0, 0, 255⟩ ⟨0, 0, 255⟩ 1 0)).colorReplaceHistory
      = [] :=
  applyColorReplace_undo_roundTrip ⟨[⟨255, 0, 0, 255⟩], 1, 1, [], -1, []⟩ 17
    ⟨255, 0, 0⟩ ⟨255, 0, 0⟩ ⟨0, 0, 255⟩ ⟨0, 0, 255⟩ 1 0 (by norm_num)
    (by norm_num [findColorsInRange, mapLookup, scanColorsInRange, scanColorsGo,
      startToEndOf, lengthSquared, isColorInRangeOptimized, addToColorMap,
      applyColorReplaceToImageData, writeRgbAt])

theorem mapLookup_append_self {α β : Type} [DecidableEq α] (k : α) (v : β)
    (l : List (α × β)) (h : mapLookup k l = none) :
    mapLookup k (l ++ [(k, v)]) = some v := by
  induction l with
  | nil => simp [mapLookup]
  | cons kv rest ih =>
      obtain ⟨k', v'⟩ := kv
      by_cases hk : k' = k
      · rw [mapLookup] at h
        rw [if_pos hk] at h
        cases h
      · rw [mapLookup] at h
        rw [if_neg hk] at h
        rw [List.cons_append, mapLookup, if_neg hk]
        exact ih h

/-- C10: the cache key of `findColorsInRange` is built only from the start
color, end color, tolerance and canvas dimensions — never from the pixels.
A second call with identical parameters therefore returns the first call's
result verbatim even when every pixel of the canvas has changed in between;
only after `clearColorCache` does a call rescan the (new) pixels. -/
theorem findColorsInRange_cache_ignores_pixels (st : ColorReplaceState)
    (canvas2 : List Pixel) (startColor endColor : Rgb) (tolerance : ℚ) :
    ((findColorsInRange
        { (findColorsInRange st startColor endColor tolerance).2 with
            canvas := canvas2 }
        startColor endColor tolerance).1 =
      (findColorsInRange st startColor endColor tolerance).1) ∧
    ((findColorsInRange
        { clearColorCache (findColorsInRange st startColor endColor tolerance).2 with
            canvas := canvas2 }
        startColor endColor tolerance).1 =
      scanColorsInRange canvas2 startColor endColor tolerance) := by
  constructor
  · rw [findColorsInRange_snd_eq st startColor endColor tolerance]
    simp only [findColorsInRange]
    cases hm : mapLookup
        (⟨startColor, endColor, tolerance, st.width, st.height⟩ : ColorCacheKey)
        st.colorCache with
    | some v => simp [hm]
    | none =>
        simp only [hm]
        rw [mapLookup_append_self _ _ _ hm]
  · rw [findColorsInRange_snd_eq st startColor endColor tolerance]
    simp only [clearColorCache, findColorsInRange, mapLookup]

theorem pixelMapIdx_map_alpha (f : ℕ → Pixel → Pixel)
    (hf : ∀ i p, (f i p).a = p.a) :
    ∀ (n : ℕ) (l : List Pixel),
      (pixelMapIdx f n l).map Pixel.a = l.map Pixel.a := by
  intro n l
  induction l generalizing n with
  | nil => rfl
  | cons p rest ih =>
      simp only [pixelMapIdx, List.map_cons, hf, ih]

theorem map_alpha_chain (s : ColorSettings) (cf ef sf : ℚ) :
    ∀ (l : List Pixel),
      (l.map (adjustPixelChain s cf ef sf)).map Pixel.a = l.map Pixel.a := by
  intro l
  induction l with
  | nil => rfl
  | cons p rest ih =>
      simp only [List.map_cons, adjustPixelChain_alpha, ih]

theorem map_alpha_set_core :
    ∀ (l : List Pixel) (j : ℕ) (r g b : ℚ),
      (l.set j ⟨r, g, b, (l.getD j default).a⟩).map Pixel.a = l.map Pixel.a := by
  intro l
  induction l with
  | nil => intro j r g b; rfl
  | cons p rest ih =>
      intro j r g b
      cases j with
      | zero => simp [List.getD]
      | succ n =>
          simp only [List.set, List.map_cons, List.getD_cons_succ]
          rw [ih]

theorem writeRgbAt_map_alpha (l : List Pixel) (i : ℕ) (c : Rgb) :
    (writeRgbAt l i c).map Pixel.a = l.map Pixel.a :=
  map_alpha_set_core l (i / 4) _ _ _

theorem foldl_positions_map_alpha (c : Rgb) :
    ∀ (ps : List ℕ) (acc : List Pixel × ℕ),
      ((ps.foldl (fun acc2 pos => (writeRgbAt acc2.1 pos c, acc2.2 + 1))
        acc).1).map Pixel.a = acc.1.map Pixel.a := by
  intro ps
  induction ps with
  | nil => intro acc; rfl
  | cons q rest ih =>
      intro acc
      rw [List.foldl_cons, ih]
      exact writeRgbAt_map_alpha _ _ _

theorem applyColorReplaceToImageData_map_alpha (gs : List ColorGroup)
    (startRgb endRgb targetStartRgb targetEndRgb : Rgb) (mixRatio : ℚ)
    (data : List Pixel) :
    ((applyColorReplaceToImageData data gs startRgb endRgb targetStartRgb
        targetEndRgb mixRatio).1).map Pixel.a = data.map Pixel.a := by
  unfold applyColorReplaceToImageData
  suffices H : ∀ acc : List Pixel × ℕ,
      ((gs.foldl (fun acc color =>
        color.positions.foldl (fun acc2 pos =>
          (writeRgbAt acc2.1 pos
            (mixColors color.rgb
              (interpolateColor targetStartRgb targetEndRgb
                (calculateColorPosition color.rgb startRgb endRgb)) mixRatio),
           acc2.2 + 1)) acc) acc).1).map Pixel.a = acc.1.map Pixel.a by
    exact H (data, 0)
  intro acc
  induction gs generalizing acc with
  | nil => rfl
  | cons g rest ih =>
      rw [List.foldl_cons, ih]
      exact foldl_positions_map_alpha _ _ _

theorem range_map_getD {α : Type} [Inhabited α] (n i : ℕ) (f : ℕ → α)
    (hi : i < n) : ((List.range n).map f).getD i default = f i := by
  rw [List.getD_eq_getElem?_getD, List.getElem?_map, List.getElem?_range hi]
  rfl

/-- C9: none of the pixel-processing passes touches the alpha channel — the
color-grading chain, the worker's median filter, the worker's separable
Gaussian filter (every pixel, both passes) and the color-range replacement
all leave the alpha byte of every pixel unchanged. -/
theorem alpha_never_modified (pow2 : ℚ → ℚ) (data : List Pixel)
    (s : ColorSettings) (width height radius : ℕ) (kernel : List ℚ)
    (groups : List ColorGroup)
    (startRgb endRgb targetStartRgb targetEndRgb : Rgb) (mixRatio : ℚ) :
    ((applyColorAdjustments pow2 data s).map Pixel.a = data.map Pixel.a) ∧
    ((applyMedianFilterOptimized data width height radius).map Pixel.a
      = data.map Pixel.a) ∧
    (∀ i < width * height,
      ((applyGaussianFilterOptimized data width height radius kernel).getD i
        default).a = (data.getD i default).a) ∧
    (((applyColorReplaceToImageData data groups startRgb endRgb
        targetStartRgb targetEndRgb mixRatio).1).map Pixel.a
      = data.map Pixel.a) := by
  refine ⟨?_, ?_, ?_, ?_⟩
  · unfold applyColorAdjustments
    split
    · rfl
    · exact map_alpha_chain _ _ _ _ data
  · unfold applyMedianFilterOptimized
    apply pixelMapIdx_map_alpha
    intro i p
    dsimp only
    split
    · rfl
    · rfl
  · intro i hi
    unfold applyGaussianFilterOptimized
    rw [range_map_getD _ _ _ hi]
    show (gaussVerticalAt _ _ _ _ _ _ _).a = _
    simp only [gaussVerticalAt]
    have hidx : i / width * width + i % width = i := by
      rw [Nat.mul_comm]
      exact Nat.div_add_mod i width
    rw [hidx, range_map_getD _ _ _ hi]
    show (gaussHorizontalAt _ _ _ _ _ _).a = _
    simp only [gaussHorizontalAt]
    rw [hidx]
  · exact applyColorReplaceToImageData_map_alpha _ _ _ _ _ _ data

theorem listModify_length {α : Type} (f : α → α) :
    ∀ (i : ℕ) (l : List α), (listModify f i l).length = l.length := by
  intro i l
  induction l generalizing i with
  | nil => cases i <;> rfl
  | cons x xs ih =>
      cases i with
      | zero => rfl
      | succ n => simp [listModify, ih]

theorem sum_map_listModify_invariant {α : Type} (f : α → α) (g : α → ℕ)
    (hg : ∀ x, g (f x) = g x) :
    ∀ (i : ℕ) (l : List α),
      ((listModify f i l).map g).sum = (l.map g).sum := by
  intro i l
  induction l generalizing i with
  | nil => cases i <;> rfl
  | cons x xs ih =>
      cases i with
      | zero => simp [listModify, hg]
      | succ n => simp [listModify, ih]

theorem sum_map_listModify_bump {α : Type} (f : α → α) (g : α → ℕ)
    (hg : ∀ x, g (f x) = g x + 1) :
    ∀ (i : ℕ) (l : List α), i < l.length →
      ((listModify f i l).map g).sum = (l.map g).sum + 1 := by
  intro i l
  induction l generalizing i with
  | nil => intro h; cases h
  | cons x xs ih =>
      intro h
      cases i with
      | zero => simp [listModify, hg]; omega
      | succ n =>
          simp only [listModify, List.map_cons, List.sum_cons,
            ih n (by simpa using h)]
          omega

theorem round_toNat_lt_256 (x : ℚ) (hx : x ≤ 255) : (round x).toNat < 256 := by
  have h1 : round x ≤ ⌊x + 1/2⌋ := le_of_eq (round_eq x)
  have h2 : ⌊x + 1/2⌋ < 256 := Int.floor_lt.mpr (by push_cast; linarith)
  omega

theorem lumaRec601_lt (r g b : ℕ) (hr : r < 256) (hg : g < 256)
    (hb : b < 256) : lumaRec601 r g b < 256 := by
  unfold lumaRec601
  apply round_toNat_lt_256
  have h1 : (r : ℚ) ≤ 255 := by exact_mod_cast Nat.lt_succ_iff.mp hr
  have h2 : (g : ℚ) ≤ 255 := by exact_mod_cast Nat.lt_succ_iff.mp hg
  have h3 : (b : ℚ) ≤ 255 := by exact_mod_cast Nat.lt_succ_iff.mp hb
  linarith

theorem lumaBT709_lt (r g b : ℕ) (hr : r < 256) (hg : g < 256)
    (hb : b < 256) : lumaBT709 r g b < 256 := by
  unfold lumaBT709
  apply round_toNat_lt_256
  have h1 : (r : ℚ) ≤ 255 := by exact_mod_cast Nat.lt_succ_iff.mp hr
  have h2 : (g : ℚ) ≤ 255 := by exact_mod_cast Nat.lt_succ_iff.mp hg
  have h3 : (b : ℚ) ≤ 255 := by exact_mod_cast Nat.lt_succ_iff.mp hb
  linarith

theorem calcHistStep_length (h : List HistBucket) (p : Rgba8) :
    (calcHistStep h p).length = h.length := by
  unfold calcHistStep
  simp [listModify_length]

theorem calcHistStep_sums (h : List HistBucket) (p : Rgba8)
    (hlen : h.length = 256) (hr : p.r < 256) (hg : p.g < 256)
    (hb : p.b < 256) :
    (((calcHistStep h p).map (fun bk => bk.r)).sum
        = ((h.map (fun bk => bk.r)).sum) + 1) ∧
    (((calcHistStep h p).map (fun bk => bk.g)).sum
        = ((h.map (fun bk => bk.g)).sum) + 1) ∧
    (((calcHistStep h p).map (fun bk => bk.b)).sum
        = ((h.map (fun bk => bk.b)).sum) + 1) ∧
    (((calcHistStep h p).map (fun bk => bk.l)).sum
        = ((h.map (fun bk => bk.l)).sum) + 1) := by
  have hlen1 : (listModify (fun bk => { bk with r := bk.r + 1 }) p.r h).length = 256 := by
    rw [listModify_length]; exact hlen
  have hlen2 : (listModify (fun bk => { bk with g := bk.g + 1 }) p.g
      (listModify (fun bk => { bk with r := bk.r + 1 }) p.r h)).length = 256 := by
    rw [listModify_length]; exact hlen1
  have hlen3 : (listModify (fun bk => { bk with b := bk.b + 1 }) p.b
      (listModify (fun bk => { bk with g := bk.g + 1 }) p.g
        (listModify (fun bk => { bk with r := bk.r + 1 }) p.r h))).length = 256 := by
    rw [listModify_length]; exact hlen2
  simp only [calcHistStep]
  refine ⟨?_, ?_, ?_, ?_⟩
  · rw [sum_map_listModify_invariant (fun bk : HistBucket => { bk with l := bk.l + 1 }) (fun bk : HistBucket => bk.r) (fun x => rfl), sum_map_listModify_invariant (fun bk : HistBucket => { bk with b := bk.b + 1 }) (fun bk : HistBucket => bk.r) (fun x => rfl), sum_map_listModify_invariant (fun bk : HistBucket => { bk with g := bk.g + 1 }) (fun bk : HistBucket => bk.r) (fun x => rfl),
      sum_map_listModify_bump (fun bk : HistBucket => { bk with r := bk.r + 1 }) (fun bk : HistBucket => bk.r) (fun x => rfl) _ _ (hlen ▸ hr)]
  · rw [sum_map_listModify_invariant (fun bk : HistBucket => { bk with l := bk.l + 1 }) (fun bk : HistBucket => bk.g) (fun x => rfl), sum_map_listModify_invariant (fun bk : HistBucket => { bk with b := bk.b + 1 }) (fun bk : HistBucket => bk.g) (fun x => rfl),
      sum_map_listModify_bump (fun bk : HistBucket => { bk with g := bk.g + 1 }) (fun bk : HistBucket => bk.g) (fun x => rfl) _ _ (hlen1 ▸ hg), sum_map_listModify_invariant (fun bk : HistBucket => { bk with r := bk.r + 1 }) (fun bk : HistBucket => bk.g) (fun x => rfl)]
  · rw [sum_map_listModify_invariant (fun bk : HistBucket => { bk with l := bk.l + 1 }) (fun bk : HistBucket => bk.b) (fun x => rfl),
      sum_map_listModify_bump (fun bk : HistBucket => { bk with b := bk.b + 1 }) (fun bk : HistBucket => bk.b) (fun x => rfl) _ _ (hlen2 ▸ hb), sum_map_listModify_invariant (fun bk : HistBucket => { bk with g := bk.g + 1 }) (fun bk : HistBucket => bk.b) (fun x => rfl), sum_map_listModify_invariant (fun bk : HistBucket => { bk with r := bk.r + 1 }) (fun bk : HistBucket => bk.b) (fun x => rfl)]
  · rw [sum_map_listModify_bump (fun bk : HistBucket => { bk with l := bk.l + 1 }) (fun bk : HistBucket => bk.l) (fun x => rfl) _ _ (hlen3 ▸ lumaRec601_lt p.r p.g p.b hr hg hb),
      sum_map_listModify_invariant (fun bk : HistBucket => { bk with b := bk.b + 1 }) (fun bk : HistBucket => bk.l) (fun x => rfl), sum_map_listModify_invariant (fun bk : HistBucket => { bk with g := bk.g + 1 }) (fun bk : HistBucket => bk.l) (fun x => rfl), sum_map_listModify_invariant (fun bk : HistBucket => { bk with r := bk.r + 1 }) (fun bk : HistBucket => bk.l) (fun x => rfl)]

theorem calcHist_fold (data : List Rgba8) :
    ∀ acc : List HistBucket,
      (∀ p ∈ data, p.r < 256 ∧ p.g < 256 ∧ p.b < 256) → acc.length = 256 →
      ((data.foldl calcHistStep acc).length = 256) ∧
      (((data.foldl calcHistStep acc).map (fun bk => bk.r)).sum
        = (acc.map (fun bk => bk.r)).sum + data.length) ∧
      (((data.foldl calcHistStep acc).map (fun bk => bk.g)).sum
        = (acc.map (fun bk => bk.g)).sum + data.length) ∧
      (((data.foldl calcHistStep acc).map (fun bk => bk.b)).sum
        = (acc.map (fun bk => bk.b)).sum + data.length) ∧
      (((data.foldl calcHistStep acc).map (fun bk => bk.l)).sum
        = (acc.map (fun bk => bk.l)).sum + data.length) := by
  induction data with
  | nil =>
      intro acc _ hlen
      exact ⟨hlen, by simp, by simp, by simp, by simp⟩
  | cons p rest ih =>
      intro acc hbytes hlen
      obtain ⟨hr, hg, hb⟩ := hbytes p (List.mem_cons_self p rest)
      have hsums := calcHistStep_sums acc p hlen hr hg hb
      have hlen' : (calcHistStep acc p).length = 256 := by
        rw [calcHistStep_length]; exact hlen
      have hih := ih (calcHistStep acc p)
        (fun q hq => hbytes q (List.mem_cons_of_mem p hq)) hlen'
      simp only [List.foldl_cons, List.length_cons]
      refine ⟨hih.1, ?_, ?_, ?_, ?_⟩
      · rw [hih.2.1, hsums.1]; omega
      · rw [hih.2.2.1, hsums.2.1]; omega
      · rw [hih.2.2.2.1, hsums.2.2.1]; omega
      · rw [hih.2.2.2.2, hsums.2.2.2]; omega

theorem sum_listModify_succ :
    ∀ (i : ℕ) (l : List ℕ), i < l.length →
      (listModify (· + 1) i l).sum = l.sum + 1 := by
  intro i l
  induction l generalizing i with
  | nil => intro h; cases h
  | cons x xs ih =>
      intro h
      cases i with
      | zero => simp [listModify]; omega
      | succ n =>
          simp only [listModify, List.sum_cons, ih n (by simpa using h)]
          omega

theorem computeHist_fold (data : List Rgba8) :
    ∀ h : HistogramW,
      (∀ p ∈ data, p.r < 256 ∧ p.g < 256 ∧ p.b < 256) →
      h.red.length = 256 → h.green.length = 256 → h.blue.length = 256 →
      h.luminance.length = 256 →
      ((data.foldl computeHistStep h).red.length = 256 ∧
       (data.foldl computeHistStep h).green.length = 256 ∧
       (data.foldl computeHistStep h).blue.length = 256 ∧
       (data.foldl computeHistStep h).luminance.length = 256) ∧
      ((data.foldl computeHistStep h).red.sum
        = h.red.sum + (data.filter (fun p => 128 ≤ p.a)).length) ∧
      ((data.foldl computeHistStep h).green.sum
        = h.green.sum + (data.filter (fun p => 128 ≤ p.a)).length) ∧
      ((data.foldl computeHistStep h).blue.sum
        = h.blue.sum + (data.filter (fun p => 128 ≤ p.a)).length) ∧
      ((data.foldl computeHistStep h).luminance.sum
        = h.luminance.sum + (data.filter (fun p => 128 ≤ p.a)).length) := by
  induction data with
  | nil =>
      intro h _ h1 h2 h3 h4
      exact ⟨⟨h1, h2, h3, h4⟩, by simp, by simp, by simp, by simp⟩
  | cons p rest ih =>
      intro h hbytes h1 h2 h3 h4
      obtain ⟨hr, hg, hb⟩ := hbytes p (List.mem_cons_self p rest)
      have hrest := fun q hq => hbytes q (List.mem_cons_of_mem p hq)
      simp only [List.foldl_cons]
      by_cases ha : p.a < 128
      · have hstep : computeHistStep h p = h := by
          unfold computeHistStep; rw [if_pos ha]
        have hfilter : (p :: rest).filter (fun p => 128 ≤ p.a)
            = rest.filter (fun p => 128 ≤ p.a) := by
          rw [List.filter_cons]
          simp [Nat.not_le.mpr ha]
        rw [hstep, hfilter]
        exact ih h hrest h1 h2 h3 h4
      · have hstep : computeHistStep h p =
            { red := listModify (· + 1) p.r h.red,
              green := listModify (· + 1) p.g h.green,
              blue := listModify (· + 1) p.b h.blue,
              luminance := listModify (· + 1) (lumaBT709 p.r p.g p.b)
                h.luminance } := by
          unfold computeHistStep; rw [if_neg ha]
        have hfilter : (p :: rest).filter (fun p => 128 ≤ p.a)
            = p :: rest.filter (fun p => 128 ≤ p.a) := by
          rw [List.filter_cons]
          simp [Nat.not_lt.mp ha]
        have hl1 : (listModify (· + 1) p.r h.red).length = 256 := by
          rw [listModify_length]; exact h1
        have hl2 : (listModify (· + 1) p.g h.green).length = 256 := by
          rw [listModify_length]; exact h2
        have hl3 : (listModify (· + 1) p.b h.blue).length = 256 := by
          rw [listModify_length]; exact h3
        have hl4 : (listModify (· + 1) (lumaBT709 p.r p.g p.b) h.luminance).length = 256 := by
          rw [listModify_length]; exact h4
        rw [hstep, hfilter]
        have hih := ih ⟨listModify (· + 1) p.r h.red,
          listModify (· + 1) p.g h.green, listModify (· + 1) p.b h.blue,
          listModify (· + 1) (lumaBT709 p.r p.g p.b) h.luminance⟩
          hrest hl1 hl2 hl3 hl4
        refine ⟨hih.1, ?_, ?_, ?_, ?_⟩
        · rw [hih.2.1, sum_listModify_succ _ _ (h1 ▸ hr)]
          simp; omega
        · rw [hih.2.2.1, sum_listModify_succ _ _ (h2 ▸ hg)]
          simp; omega
        · rw [hih.2.2.2.1, sum_listModify_succ _ _ (h3 ▸ hb)]
          simp; omega
        · rw [hih.2.2.2.2, sum_listModify_succ _ _
            (h4 ▸ lumaBT709_lt p.r p.g p.b hr hg hb)]
          simp; omega

/-- C3 (amended): for a valid byte buffer of dimensions `width × height`,
every one of the four 256-bucket count sums of `calculateHistogram`
(src/unnamed/part_003) equals `width * height`; the worker's
`computeHistogram` (src/unnamed/part_005) skips pixels with `alpha < 128`,
so each of its four bucket sums equals the number of pixels with
`alpha ≥ 128` — which is `width * height` only when no pixel is skipped. -/
theorem histogram_bucket_sums (data : List Rgba8) (width height : ℕ)
    (hdim : data.length = width * height)
    (hbytes : ∀ p ∈ data, p.r < 256 ∧ p.g < 256 ∧ p.b < 256) :
    ((((calculateHistogram data).map (fun bk => bk.r)).sum = width * height) ∧
     (((calculateHistogram data).map (fun bk => bk.g)).sum = width * height) ∧
     (((calculateHistogram data).map (fun bk => bk.b)).sum = width * height) ∧
     (((calculateHistogram data).map (fun bk => bk.l)).sum = width * height)) ∧
    (((computeHistogram data).red.sum
        = (data.filter (fun p => 128 ≤ p.a)).length) ∧
     ((computeHistogram data).green.sum
        = (data.filter (fun p => 128 ≤ p.a)).length) ∧
     ((computeHistogram data).blue.sum
        = (data.filter (fun p => 128 ≤ p.a)).length) ∧
     ((computeHistogram data).luminance.sum
        = (data.filter (fun p => 128 ≤ p.a)).length)) := by
  have hcalc := calcHist_fold data (List.replicate 256 ⟨0, 0, 0, 0⟩) hbytes
    (List.length_replicate 256 _)
  have hw := computeHist_fold data
    ⟨List.replicate 256 0, List.replicate 256 0, List.replicate 256 0,
     List.replicate 256 0⟩ hbytes (List.length_replicate 256 _)
    (List.length_replicate 256 _) (List.length_replicate 256 _)
    (List.length_replicate 256 _)
  have hzR : ((List.replicate 256 (⟨0, 0, 0, 0⟩ : HistBucket)).map
      (fun bk => bk.r)).sum = 0 := by
    rw [List.map_replicate, List.sum_replicate]; exact smul_zero 256
  have hzG : ((List.replicate 256 (⟨0, 0, 0, 0⟩ : HistBucket)).map
      (fun bk => bk.g)).sum = 0 := by
    rw [List.map_replicate, List.sum_replicate]; exact smul_zero 256
  have hzB : ((List.replicate 256 (⟨0, 0, 0, 0⟩ : HistBucket)).map
      (fun bk => bk.b)).sum = 0 := by
    rw [List.map_replicate, List.sum_replicate]; exact smul_zero 256
  have hzL : ((List.replicate 256 (⟨0, 0, 0, 0⟩ : HistBucket)).map
      (fun bk => bk.l)).sum = 0 := by
    rw [List.map_replicate, List.sum_replicate]; exact smul_zero 256
  have hzN : (List.replicate 256 (0 : ℕ)).sum = 0 := by
    rw [List.sum_replicate]; exact smul_zero 256
  constructor
  · refine ⟨?_, ?_, ?_, ?_⟩
    · rw [calculateHistogram, hcalc.2.1, hdim, hzR]; omega
    · rw [calculateHistogram, hcalc.2.2.1, hdim, hzG]; omega
    · rw [calculateHistogram, hcalc.2.2.2.1, hdim, hzB]; omega
    · rw [calculateHistogram, hcalc.2.2.2.2, hdim, hzL]; omega
  · refine ⟨?_, ?_, ?_, ?_⟩
    · rw [computeHistogram, hw.2.1, hzN]; omega
    · rw [computeHistogram, hw.2.2.1, hzN]; omega
    · rw [computeHistogram, hw.2.2.2.1, hzN]; omega
    · rw [computeHistogram, hw.2.2.2.2, hzN]; omega

theorem histogram_bucket_sums_witness :
    ((((calculateHistogram [⟨1, 2, 3, 0⟩, ⟨255, 255, 255, 255⟩]).map
        (fun bk => bk.r)).sum = 2 * 1) ∧
     (((calculateHistogram [⟨1, 2, 3, 0⟩, ⟨255, 255, 255, 255⟩]).map
        (fun bk => bk.g)).sum = 2 * 1) ∧
     (((calculateHistogram [⟨1, 2, 3, 0⟩, ⟨255, 255, 255, 255⟩]).map
        (fun bk => bk.b)).sum = 2 * 1) ∧
     (((calculateHistogram [⟨1, 2, 3, 0⟩, ⟨255, 255, 255, 255⟩]).map
        (fun bk => bk.l)).sum = 2 * 1)) ∧
    (((computeHistogram [⟨1, 2, 3, 0⟩, ⟨255, 255, 255, 255⟩]).red.sum
        = ([⟨1, 2, 3, 0⟩, (⟨255, 255, 255, 255⟩ : Rgba8)].filter
            (fun p => 128 ≤ p.a)).length) ∧
     ((computeHistogram [⟨1, 2, 3, 0⟩, ⟨255, 255, 255, 255⟩]).green.sum
        = ([⟨1, 2, 3, 0⟩, (⟨255, 255, 255, 255⟩ : Rgba8)].filter
            (fun p => 128 ≤ p.a)).length) ∧
     ((computeHistogram [⟨1, 2, 3, 0⟩, ⟨255, 255, 255, 255⟩]).blue.sum
        = ([⟨1, 2, 3, 0⟩, (⟨255, 255, 255, 255⟩ : Rgba8)].filter
            (fun p => 128 ≤ p.a)).length) ∧
     ((computeHistogram [⟨1, 2, 3, 0⟩, ⟨255, 255, 255, 255⟩]).luminance.sum
        = ([⟨1, 2, 3, 0⟩, (⟨255, 255, 255, 255⟩ : Rgba8)].filter
            (fun p => 128 ≤ p.a)).length)) :=
  histogram_bucket_sums [⟨1, 2, 3, 0⟩, ⟨255, 255, 255, 255⟩] 2 1 rfl (by
    intro p hp
    simp only [List.mem_cons, List.not_mem_nil, or_false] at hp
    rcases hp with rfl | rfl
    · exact ⟨by norm_num, by norm_num, by norm_num⟩
    · exact ⟨by norm_num, by norm_num, by norm_num⟩)

/-- Counterexample to C3 as stated: the worker's `computeHistogram` skips
transparent pixels, so on the 1×1 buffer holding the single pixel
`(0,0,0,0)` each of its bucket sums is `0`, not `width*height = 1`. -/
theorem computeHistogram_sum_counterexample :
    ([(⟨0, 0, 0, 0⟩ : Rgba8)].length = 1 * 1) ∧
    (computeHistogram [⟨0, 0, 0, 0⟩]).red.sum ≠ 1 * 1 ∧
    (computeHistogram [⟨0, 0, 0, 0⟩]).luminance.sum ≠ 1 * 1 := by
  have h : computeHistogram [⟨0, 0, 0, 0⟩] =
      ⟨List.replicate 256 0, List.replicate 256 0, List.replicate 256 0,
       List.replicate 256 0⟩ := rfl
  have hzN : (List.replicate 256 (0 : ℕ)).sum = 0 := by
    rw [List.sum_replicate]; exact smul_zero 256
  refine ⟨rfl, ?_, ?_⟩ <;> rw [h] <;> simp only [hzN] <;> omega

theorem mapLookup_mapSet_self {α β : Type} [DecidableEq α] (k : α) (v : β) :
    ∀ l : List (α × β), mapLookup k (mapSet k v l) = some v := by
  intro l
  induction l with
  | nil => simp [mapSet, mapLookup]
  | cons kv rest ih =>
      obtain ⟨k', v'⟩ := kv
      by_cases h : k' = k
      · simp [mapSet, mapLookup, h]
      · simp [mapSet, mapLookup, h, ih]

theorem mapLookup_mapSet_ne {α β : Type} [DecidableEq α] {q k : α} (v : β)
    (h : q ≠ k) :
    ∀ l : List (α × β), mapLookup q (mapSet k v l) = mapLookup q l := by
  intro l
  induction l with
  | nil => simp [mapSet, mapLookup, Ne.symm h]
  | cons kv rest ih =>
      obtain ⟨k', v'⟩ := kv
      by_cases hk : k' = k
      · subst hk
        simp [mapSet, mapLookup, Ne.symm h]
      · simp [mapSet, mapLookup, hk, ih]

theorem mapLookup_mapDelete_self {α β : Type} [DecidableEq α] (k : α) :
    ∀ l : List (α × β), (l.map Prod.fst).Nodup →
      mapLookup k (mapDelete k l) = none := by
  intro l
  induction l with
  | nil => intro _; rfl
  | cons kv rest ih =>
      obtain ⟨k', v'⟩ := kv
      intro hnodup
      rw [List.map_cons, List.nodup_cons] at hnodup
      by_cases h : k' = k
      · subst h
        rw [mapDelete, if_pos rfl]
        clear ih
        induction rest with
        | nil => rfl
        | cons kv2 rest2 ih2 =>
            obtain ⟨k2, v2⟩ := kv2
            rw [mapLookup]
            rw [if_neg (by
              intro he
              exact hnodup.1 (by rw [he]; exact List.mem_cons_self _ _))]
            exact ih2
              ⟨fun hm => hnodup.1 (List.mem_cons_of_mem _ hm),
               (List.nodup_cons.mp hnodup.2).2⟩
      · rw [mapDelete, if_neg h, mapLookup, if_neg h]
        exact ih hnodup.2

theorem mapLookup_mapDelete_ne {α β : Type} [DecidableEq α] {q k : α}
    (h : q ≠ k) :
    ∀ l : List (α × β), mapLookup q (mapDelete k l) = mapLookup q l := by
  intro l
  induction l with
  | nil => rfl
  | cons kv rest ih =>
      obtain ⟨k', v'⟩ := kv
      by_cases hk : k' = k
      · subst hk
        rw [mapDelete, if_pos rfl, mapLookup, if_neg (fun he => h he.symm)]
      · rw [mapDelete, if_neg hk, mapLookup, mapLookup, ih]

theorem getOldestStep_other {ty : CacheType} {kv : (CacheType × String) × ℕ}
    (acc : Option (String × ℕ)) (h : ¬ kv.1.1 = ty) :
    getOldestStep ty acc kv = acc := by
  simp [getOldestStep, h]

theorem getOldest_fold_spec (ty : CacheType) :
    ∀ (l : List ((CacheType × String) × ℕ)) (acc : Option (String × ℕ))
      (k : String) (t : ℕ),
      l.foldl (getOldestStep ty) acc = some (k, t) →
      ((acc = some (k, t) ∨ ((ty, k), t) ∈ l) ∧
       (∀ k' t', ((ty, k'), t') ∈ l → t ≤ t') ∧
       (∀ k0 t0, acc = some (k0, t0) → t ≤ t0)) := by
  intro l
  induction l with
  | nil =>
      intro acc k t h
      rw [List.foldl_nil] at h
      refine ⟨Or.inl h, ?_, ?_⟩
      · intro k' t' hmem; cases hmem
      · intro k0 t0 h0
        rw [h] at h0
        have heq := Option.some.inj h0
        cases heq
        exact le_refl t
  | cons kv rest ih =>
      intro acc k t h
      obtain ⟨⟨tyh, keyh⟩, timeh⟩ := kv
      rw [List.foldl_cons] at h
      by_cases hty : tyh = ty
      · subst hty
        cases acc with
        | none =>
            have hstep : getOldestStep tyh none ((tyh, keyh), timeh)
                = some (keyh, timeh) := by simp [getOldestStep]
            rw [hstep] at h
            have hres := ih (some (keyh, timeh)) k t h
            refine ⟨?_, ?_, ?_⟩
            · rcases hres.1 with heq | hmem
              · cases Option.some.inj heq
                exact Or.inr (List.mem_cons_self _ _)
              · exact Or.inr (List.mem_cons_of_mem _ hmem)
            · intro k' t' hmem
              rcases List.mem_cons.mp hmem with heq | hmem'
              · have h2 : t' = timeh := congrArg Prod.snd heq
                rw [h2]
                exact hres.2.2 keyh timeh rfl
              · exact hres.2.1 k' t' hmem'
            · intro k0 t0 h0; cases h0
        | some acc0 =>
            obtain ⟨ka, ta⟩ := acc0
            by_cases htime : timeh < ta
            · have hstep : getOldestStep tyh (some (ka, ta)) ((tyh, keyh), timeh)
                  = some (keyh, timeh) := by simp [getOldestStep, htime]
              rw [hstep] at h
              have hres := ih (some (keyh, timeh)) k t h
              have hle : t ≤ timeh := hres.2.2 keyh timeh rfl
              refine ⟨?_, ?_, ?_⟩
              · rcases hres.1 with heq | hmem
                · cases Option.some.inj heq
                  exact Or.inr (List.mem_cons_self _ _)
                · exact Or.inr (List.mem_cons_of_mem _ hmem)
              · intro k' t' hmem
                rcases List.mem_cons.mp hmem with heq | hmem'
                · have h2 : t' = timeh := congrArg Prod.snd heq
                  omega
                · exact hres.2.1 k' t' hmem'
              · intro k0 t0 h0
                have heq := Option.some.inj h0
                have h2 : ta = t0 := congrArg Prod.snd heq
                omega
            · have hstep : getOldestStep tyh (some (ka, ta)) ((tyh, keyh), timeh)
                  = some (ka, ta) := by simp [getOldestStep, htime]
              rw [hstep] at h
              have hres := ih (some (ka, ta)) k t h
              have hle : t ≤ ta := hres.2.2 ka ta rfl
              refine ⟨?_, ?_, ?_⟩
              · rcases hres.1 with heq | hmem
                · exact Or.inl heq
                · exact Or.inr (List.mem_cons_of_mem _ hmem)
              · intro k' t' hmem
                rcases List.mem_cons.mp hmem with heq | hmem'
                · have h2 : t' = timeh := congrArg Prod.snd heq
                  omega
                · exact hres.2.1 k' t' hmem'
              · intro k0 t0 h0
                have heq := Option.some.inj h0
                have h2 : ta = t0 := congrArg Prod.snd heq
                omega
      · rw [getOldestStep_other acc hty] at h
        have hres := ih acc k t h
        refine ⟨?_, ?_, ?_⟩
        · rcases hres.1 with heq | hmem
          · exact Or.inl heq
          · exact Or.inr (List.mem_cons_of_mem _ hmem)
        · intro k' t' hmem
          rcases List.mem_cons.mp hmem with heq | hmem'
          · exact absurd (congrArg (fun q => q.1.1) heq).symm hty
          · exact hres.2.1 k' t' hmem'
        · exact hres.2.2

theorem getOldestCacheKey_min (timestamps : List ((CacheType × String) × ℕ))
    (ty : CacheType) (o : String)
    (h : getOldestCacheKey timestamps ty = some o) :
    ∃ t, ((ty, o), t) ∈ timestamps ∧
      ∀ k t', ((ty, k), t') ∈ timestamps → t ≤ t' := by
  unfold getOldestCacheKey at h
  rcases Option.map_eq_some'.mp h with ⟨⟨k, t⟩, hfold, hk⟩
  have hko : k = o := hk
  subst hko
  have hres := getOldest_fold_spec ty timestamps none k t hfold
  rcases hres.1 with heq | hmem
  · cases heq
  · exact ⟨t, hmem, hres.2.1⟩

/-- C7: starting from an empty cache configured with `maxSize = 2`,
inserting three distinct keys in sequence (at non-decreasing times) evicts
the first-inserted key — the one with the oldest timestamp — so a
subsequent `getCache` of that key returns `null`.  In general, an insert
into a full cache type removes exactly the entry named by
`getOldestCacheKey` — an entry of minimal timestamp among that type's
entries — keeps every other key of the type intact, and stores the new
key. -/
theorem setCache_evicts_oldest {V : Type} (v1 v2 v3 : V) (k1 k2 k3 : String)
    (ty : CacheType) (t1 t2 t3 t4 ttl : ℕ)
    (h12 : k1 ≠ k2) (h13 : k1 ≠ k3) (h23 : k2 ≠ k3)
    (hk1 : k1 ≠ "") (hk2 : k2 ≠ "") (hk3 : k3 ≠ "")
    (ht : t1 ≤ t2) :
    ((getCache (setCache (setCache (setCache
        (⟨[], [], ⟨2, ttl, true⟩⟩ : OptimizerCacheState V)
        k1 v1 ty t1) k2 v2 ty t2) k3 v3 ty t3) k1 ty t4).1 = none) ∧
    (∀ (st : OptimizerCacheState V) (key o : String) (v : V)
        (ty2 : CacheType) (now : ℕ),
      st.config.enabled = true → key ≠ "" →
      (st.entries.map Prod.fst).Nodup →
      st.config.maxSize ≤ cacheSize st ty2 →
      getOldestCacheKey st.timestamps ty2 = some o → o ≠ key →
      ((∃ t, ((ty2, o), t) ∈ st.timestamps ∧
          ∀ k t', ((ty2, k), t') ∈ st.timestamps → t ≤ t') ∧
       mapLookup (ty2, o) (setCache st key v ty2 now).entries = none ∧
       (∀ k, k ≠ o → k ≠ key →
         mapLookup (ty2, k) (setCache st key v ty2 now).entries
           = mapLookup (ty2, k) st.entries) ∧
       mapLookup (ty2, key) (setCache st key v ty2 now).entries = some v)) := by
  constructor
  · have hnl : ¬ (t2 < t1) := not_lt.mpr ht
    have e1 : setCache (⟨[], [], ⟨2, ttl, true⟩⟩ : OptimizerCacheState V)
        k1 v1 ty t1 =
        ⟨[((ty, k1), v1)], [((ty, k1), t1)], ⟨2, ttl, true⟩⟩ := by
      norm_num [setCache, cacheSize, mapSet, hk1]
    have e2 : setCache
        (⟨[((ty, k1), v1)], [((ty, k1), t1)], ⟨2, ttl, true⟩⟩ :
          OptimizerCacheState V) k2 v2 ty t2 =
        ⟨[((ty, k1), v1), ((ty, k2), v2)],
         [((ty, k1), t1), ((ty, k2), t2)], ⟨2, ttl, true⟩⟩ := by
      norm_num [setCache, cacheSize, mapSet, hk2, h12]
    have e3 : setCache
        (⟨[((ty, k1), v1), ((ty, k2), v2)],
          [((ty, k1), t1), ((ty, k2), t2)], ⟨2, ttl, true⟩⟩ :
          OptimizerCacheState V) k3 v3 ty t3 =
        ⟨[((ty, k2), v2), ((ty, k3), v3)],
         [((ty, k2), t2), ((ty, k3), t3)], ⟨2, ttl, true⟩⟩ := by
      norm_num [setCache, cacheSize, mapSet, mapDelete, getOldestCacheKey,
        getOldestStep, hk3, h13, h23, hnl]
    rw [e1, e2, e3]
    norm_num [getCache, mapLookup, Ne.symm h12, Ne.symm h13]
  · intro st key o v ty2 now hen hkey hnodup hsize holdest hok
    have hmin := getOldestCacheKey_min st.timestamps ty2 o holdest
    have hset : setCache st key v ty2 now =
        { st with
            entries := mapSet (ty2, key) v (mapDelete (ty2, o) st.entries),
            timestamps :=
              mapSet (ty2, key) now (mapDelete (ty2, o) st.timestamps) } := by
      simp only [setCache]
      rw [if_neg (by simp [hen, hkey]), if_pos hsize, holdest]
    rw [hset]
    have hne_ok : ((ty2, o) : CacheType × String) ≠ (ty2, key) := by
      simp [hok]
    refine ⟨hmin, ?_, ?_, ?_⟩
    · rw [mapLookup_mapSet_ne v hne_ok]
      exact mapLookup_mapDelete_self (ty2, o) st.entries hnodup
    · intro k hko hkk
      rw [mapLookup_mapSet_ne v (by simp [hkk]),
        mapLookup_mapDelete_ne (by simp [hko])]
    · exact mapLookup_mapSet_self (ty2, key) v (mapDelete (ty2, o) st.entries)

theorem setCache_evicts_oldest_witness :
    ((getCache (setCache (setCache (setCache
        (⟨[], [], ⟨2, 1000, true⟩⟩ : OptimizerCacheState ℕ)
        "a" 10 CacheType.processed 1) "b" 20 CacheType.processed 2)
        "c" 30 CacheType.processed 3) "a" CacheType.processed 4).1 = none) ∧
    (∀ (st : OptimizerCacheState ℕ) (key o : String) (v : ℕ)
        (ty2 : CacheType) (now : ℕ),
      st.config.enabled = true → key ≠ "" →
      (st.entries.map Prod.fst).Nodup →
      st.config.maxSize ≤ cacheSize st ty2 →
      getOldestCacheKey st.timestamps ty2 = some o → o ≠ key →
      ((∃ t, ((ty2, o), t) ∈ st.timestamps ∧
          ∀ k t', ((ty2, k), t') ∈ st.timestamps → t ≤ t') ∧
       mapLookup (ty2, o) (setCache st key v ty2 now).entries = none ∧
       (∀ k, k ≠ o → k ≠ key →
         mapLookup (ty2, k) (setCache st key v ty2 now).entries
           = mapLookup (ty2, k) st.entries) ∧
       mapLookup (ty2, key) (setCache st key v ty2 now).entries = some v)) :=
  setCache_evicts_oldest 10 20 30 "a" "b" "c" CacheType.processed 1 2 3 4 1000
    (by decide) (by decide) (by decide) (by decide) (by decide) (by decide)
    (by decide)

/-- C8 (failing input): task 1 is in flight with its callback registered and
task 2 is queued; the worker reports the failure of task 1 with
`{success: false, error: "Unknown task: sharpen"}` — no `taskId`.  The
scheduler then dispatches the next queued task (the queue is not wedged),
but it neither invokes nor removes the failed task's callback: the
callbacks map still holds ids 1 and 2, and the only event is the worker
post of task 2 — no `callbackInvoked` — contradicting the claim that the
failure surfaces as a rejected result to the task's callback and that the
callback is removed. -/
theorem handleWorkerMessage_failure_behavior :
    handleWorkerMessage
      ⟨[⟨2, "applyMedianFilter", some [9, 9, 9, 9]⟩], true, [1, 2], [], 2⟩
      (workerFailureMessage "Unknown task: sharpen") =
    (⟨[], true, [1, 2], [], 2⟩,
     [SchedulerEvent.workerPosted 2 "applyMedianFilter"]) := by
  rw [handleWorkerMessage]
  simp only [workerFailureMessage, errTruthy]
  rw [processNextTask]
  simp [taskCacheHit, generateCacheKey]
